import Mathlib

/-!
Verification development for the SenseMaker repository.

The harvesting core lives in `src/modules/scraper.py` (the adaptive feed
harvester `scrape_group` with its URL normalizer, dedup ledger, extraction
cascade and stall-counting cycle loop) and the multi-target batch driver in
`src/dashboard.py` (`_run_multi_scrape_sync`).

This file shallowly embeds those functions:
* pure string/URL manipulation is translated to executable functions over
  `List Char` / `String`, following the CPython `urllib.parse` algorithms
  (`urljoin`, `urlparse`, `parse_qs`, `unquote_plus`) that the source calls;
* the Playwright rendering surface is abstracted as an environment (`Sim`)
  that supplies the observations the code reads (container inner texts,
  candidate permalink hrefs, comment fragments, page anchors, title/body)
  and may inject an exception at each await boundary of the harvest loop;
* `scrape_group` becomes a state-passing interpreter over that environment,
  with the top-level `try/except` modelled by total error propagation into
  a `ScrapeOutcome` record.

Modelling notes (documented divergences, none load-bearing for the claims):
* `unquote` percent-decoding is modelled byte-wise for ASCII escapes; the
  UTF-8 multi-byte decoding (and U+FFFD replacement) of CPython is not
  modelled.  All theorems that touch decoding either hypothesise
  escape-free strings or use ASCII escapes.
* the control-character/tab stripping added to `urlsplit` in recent CPython
  and the bracketed-host validation beyond the `[`/`]` mismatch check are
  not modelled.
* `datetime.now` is modelled by an arbitrary timestamp string carried by the
  environment, and `hashlib.md5(..).hexdigest()` by an arbitrary function
  parameter `md5hex` — every theorem is proved for all values of both.
* the optional `persist_cb` callback is not modelled (no claim touches it).
-/

namespace SenseMaker

/-! ## Basic string utilities (Python `str` methods) -/

/-- Python `str.strip()` on the characters of a string (ASCII whitespace). -/
def pyStripList (l : List Char) : List Char :=
  ((l.dropWhile Char.isWhitespace).reverse.dropWhile Char.isWhitespace).reverse

/-- Python `str.strip()`. -/
def pyStrip (s : String) : String := String.mk (pyStripList s.toList)

/-- Python `str.rstrip(c)` for a single character `c`. -/
def rstripChar (c : Char) (l : List Char) : List Char :=
  (l.reverse.dropWhile (· = c)).reverse

/-- Python `str.rstrip('/')` on a `String`. -/
def pyRstripSlash (s : String) : String := String.mk (rstripChar '/' s.toList)

/-- `listIsPre n h` decides whether `n` is a leading run of `h`
(Python `h.startswith(n)`). -/
def listIsPre : List Char → List Char → Bool
  | [], _ => true
  | _ :: _, [] => false
  | a :: as, b :: bs => a = b && listIsPre as bs

/-- `listHasSub n h` decides Python's substring containment `n in h`. -/
def listHasSub (n : List Char) : List Char → Bool
  | [] => n.isEmpty
  | c :: t => listIsPre n (c :: t) || listHasSub n t

/-- Python's `needle in hay` on strings. -/
def pyIn (needle hay : String) : Bool := listHasSub needle.toList hay.toList

/-- Python `str.split()` with no separator: split on whitespace runs,
dropping empty pieces. -/
def pySplitWs (s : String) : List String :=
  ((s.toList.splitOnP Char.isWhitespace).filter (· ≠ [])).map String.mk

/-- Python `s.split(sep, 1)`: `none` when `sep` does not occur, otherwise
the pieces before and after its first occurrence. -/
def splitOnce (sep : Char) (l : List Char) : Option (List Char × List Char) :=
  match l.dropWhile (· ≠ sep) with
  | [] => none
  | _ :: rest => some (l.takeWhile (· ≠ sep), rest)

/-! ## `urllib.parse` embedding

Translated from CPython's `Lib/urllib/parse.py` (the functions reached from
`_normalize_facebook_url`: `urljoin`, `urlparse`, `urlunparse`, `parse_qs`,
`unquote_plus`). -/

/-- Characters allowed in a URL scheme (`scheme_chars` in `urllib.parse`). -/
def isSchemeChar (c : Char) : Bool :=
  c.isAlpha || c.isDigit || c = '+' || c = '-' || c = '.'

/-- `uses_relative` from `urllib.parse`. -/
def usesRelative : List (List Char) :=
  ["", "ftp", "http", "gopher", "nntp", "imap", "wais", "file", "https",
   "shttp", "mms", "prospero", "rtsp", "rtspu", "sftp", "svn", "svn+ssh",
   "ws", "wss"].map String.toList

/-- `uses_netloc` from `urllib.parse`. -/
def usesNetloc : List (List Char) :=
  ["", "ftp", "http", "gopher", "nntp", "telnet", "imap", "wais", "file",
   "mms", "https", "shttp", "snews", "prospero", "rtsp", "rtspu", "rsync",
   "svn", "svn+ssh", "sftp", "nfs", "git", "git+ssh", "ws", "wss"].map
    String.toList

/-- `uses_params` from `urllib.parse`. -/
def usesParams : List (List Char) :=
  ["", "ftp", "hdl", "prospero", "http", "imap", "https", "shttp", "rtsp",
   "rtspu", "sip", "sips", "mms", "sftp", "tel"].map String.toList

/-- Result of `urlsplit`. -/
structure UrlSplitRes where
  scheme : List Char
  netloc : List Char
  path : List Char
  query : List Char
  fragment : List Char
deriving Repr, DecidableEq

/-- Result of `urlparse` (`urlsplit` plus the `params` component split from
the last path segment). -/
structure UrlParseRes where
  scheme : List Char
  netloc : List Char
  path : List Char
  params : List Char
  query : List Char
  fragment : List Char
deriving Repr, DecidableEq

/-- Scheme detection of `urlsplit`: a valid scheme is a non-empty run of
scheme characters starting with an ASCII letter and followed by `':'`;
it is lowercased.  Returns `(scheme, rest)`, falling back to the supplied
default scheme. -/
def splitScheme (url : List Char) (defaultScheme : List Char) :
    List Char × List Char :=
  match url.dropWhile (· ≠ ':') with
  | [] => (defaultScheme, url)
  | _ :: rest =>
    match url.takeWhile (· ≠ ':') with
    | [] => (defaultScheme, url)
    | c0 :: cs =>
      if c0.isAlpha ∧ (c0 :: cs).all isSchemeChar then
        ((c0 :: cs).map Char.toLower, rest)
      else (defaultScheme, url)

/-- A character that terminates the netloc portion (`_splitnetloc` stops at
the first of `'/'`, `'?'`, `'#'`). -/
def isNetlocEnd (c : Char) : Bool := c = '/' || c = '?' || c = '#'

/-- The netloc extraction of `urlsplit`: if the remainder after the scheme
starts with `'//'`, the netloc runs up to the first of `'/'`, `'?'`, `'#'`
(`_splitnetloc(url, 2)`); returns `(netloc, rest)`. -/
def netlocSplit (r1 : List Char) : List Char × List Char :=
  if r1.take 2 = ['/', '/'] then
    ((r1.drop 2).takeWhile (fun c => ¬ isNetlocEnd c),
     (r1.drop 2).dropWhile (fun c => ¬ isNetlocEnd c))
  else ([], r1)

/-- `urllib.parse.urlsplit` (without the modern control-character
sanitisation).  Fails (`none`) exactly where CPython raises `ValueError`:
a netloc containing `'['` without `']'` or vice versa. -/
def pyUrlsplit (url : List Char) (defaultScheme : List Char) :
    Option UrlSplitRes :=
  let sr := splitScheme url defaultScheme
  let ns := netlocSplit sr.2
  if ('[' ∈ ns.1 ∧ ']' ∉ ns.1) ∨ (']' ∈ ns.1 ∧ '[' ∉ ns.1) then none
  else
    let beforeFrag := ns.2.takeWhile (· ≠ '#')
    let fragment := (ns.2.dropWhile (· ≠ '#')).tail
    let path := beforeFrag.takeWhile (· ≠ '?')
    let query := (beforeFrag.dropWhile (· ≠ '?')).tail
    some ⟨sr.1, ns.1, path, query, fragment⟩

/-- `urllib.parse._splitparams`: split `';'`-parameters off the last path
segment (only called when `';'` occurs in the path). -/
def pySplitparams (url : List Char) : List Char × List Char :=
  if '/' ∈ url then
    let lastSeg := (url.reverse.takeWhile (· ≠ '/')).reverse
    let front := (url.reverse.dropWhile (· ≠ '/')).reverse
    if ';' ∈ lastSeg then
      (front ++ lastSeg.takeWhile (· ≠ ';'),
       match lastSeg.dropWhile (· ≠ ';') with
       | _ :: p => p
       | [] => [])
    else (url, [])
  else
    if ';' ∈ url then
      (url.takeWhile (· ≠ ';'),
       match url.dropWhile (· ≠ ';') with
       | _ :: p => p
       | [] => [])
    else (url, [])

/-- `urllib.parse.urlparse`. -/
def pyUrlparse (url : List Char) (defaultScheme : List Char) :
    Option UrlParseRes := do
  let r ← pyUrlsplit url defaultScheme
  if r.scheme ∈ usesParams ∧ ';' ∈ r.path then
    let pp := pySplitparams r.path
    pure ⟨r.scheme, r.netloc, pp.1, pp.2, r.query, r.fragment⟩
  else
    pure ⟨r.scheme, r.netloc, r.path, [], r.query, r.fragment⟩

/-- `urllib.parse.urlunsplit`. -/
def pyUrlunsplit (scheme netloc url query fragment : List Char) : List Char :=
  let url1 :=
    if netloc ≠ [] ∨ url.take 2 = ['/', '/'] then
      let u := if url ≠ [] ∧ url.take 1 ≠ ['/'] then '/' :: url else url
      '/' :: '/' :: (netloc ++ u)
    else url
  let url2 := if scheme ≠ [] then scheme ++ ':' :: url1 else url1
  let url3 := if query ≠ [] then url2 ++ '?' :: query else url2
  if fragment ≠ [] then url3 ++ '#' :: fragment else url3

/-- `urllib.parse.urlunparse`. -/
def pyUrlunparse (r : UrlParseRes) : List Char :=
  let url := if r.params ≠ [] then r.path ++ ';' :: r.params else r.path
  pyUrlunsplit r.scheme r.netloc url r.query r.fragment

/-- The `segments[1:-1] = filter(None, segments[1:-1])` step of `urljoin`:
drop empty segments, keeping the first and last elements. -/
def filterMid (l : List (List Char)) : List (List Char) :=
  match l with
  | [] => []
  | [a] => [a]
  | a :: b :: rest =>
    a :: (((b :: rest).dropLast.filter (· ≠ [])) ++ [(b :: rest).getLastD []])

/-- The dot-segment resolution loop of `urljoin` (`resolved_path`). -/
def resolveSegs (acc : List (List Char)) : List (List Char) → List (List Char)
  | [] => acc
  | s :: rest =>
    if s = ['.', '.'] then resolveSegs acc.dropLast rest
    else if s = ['.'] then resolveSegs acc rest
    else resolveSegs (acc ++ [s]) rest

/-- `urllib.parse.urljoin`. -/
def pyUrljoin (base url : List Char) : Option (List Char) := do
  if base = [] then return url
  if url = [] then return base
  let b ← pyUrlparse base []
  let u ← pyUrlparse url b.scheme
  if u.scheme ≠ b.scheme ∨ u.scheme ∉ usesRelative then return url
  if u.scheme ∈ usesNetloc ∧ u.netloc ≠ [] then
    return pyUrlunparse ⟨u.scheme, u.netloc, u.path, u.params, u.query, u.fragment⟩
  let netloc := if u.scheme ∈ usesNetloc then b.netloc else u.netloc
  if u.path = [] ∧ u.params = [] then
    let query := if u.query = [] then b.query else u.query
    return pyUrlunparse ⟨u.scheme, netloc, b.path, b.params, query, u.fragment⟩
  let baseParts0 := b.path.splitOn '/'
  let baseParts :=
    if baseParts0.getLastD [] ≠ [] then baseParts0.dropLast else baseParts0
  let segments :=
    if u.path.take 1 = ['/'] then u.path.splitOn '/'
    else filterMid (baseParts ++ u.path.splitOn '/')
  let resolved0 := resolveSegs [] segments
  let resolved :=
    if segments.getLastD [] = ['.'] ∨ segments.getLastD [] = ['.', '.'] then
      resolved0 ++ [[]]
    else resolved0
  let joined := List.intercalate ['/'] resolved
  let path := if joined = [] then ['/'] else joined
  return pyUrlunparse ⟨u.scheme, netloc, path, u.params, u.query, u.fragment⟩

/-! ## `parse_qs` / `unquote_plus` -/

/-- Value of a hexadecimal digit. -/
def hexVal (c : Char) : Option Nat :=
  if '0' ≤ c ∧ c ≤ '9' then some (c.toNat - '0'.toNat)
  else if 'a' ≤ c ∧ c ≤ 'f' then some (c.toNat - 'a'.toNat + 10)
  else if 'A' ≤ c ∧ c ≤ 'F' then some (c.toNat - 'A'.toNat + 10)
  else none

/-- Percent-decoding of `urllib.parse.unquote` (ASCII byte-wise model;
invalid escapes are left untouched, as in CPython). -/
def pctDecode : List Char → List Char
  | [] => []
  | [c] => [c]
  | [c, a] => [c, a]
  | c :: a :: b :: rest =>
    if c = '%' then
      match hexVal a, hexVal b with
      | some x, some y => Char.ofNat (16 * x + y) :: pctDecode rest
      | some _, none => '%' :: pctDecode (a :: b :: rest)
      | none, _ => '%' :: pctDecode (a :: b :: rest)
    else c :: pctDecode (a :: b :: rest)

/-- `urllib.parse.unquote_plus`: `'+'` becomes a space, then
percent-escapes are decoded. -/
def unquotePlus (l : List Char) : List Char :=
  pctDecode (l.map fun c => if c = '+' then ' ' else c)

/-- Treatment of one `name=value` chunk by `parse_qsl`
(`keep_blank_values=False`): chunks without `'='` or with an empty value
are dropped, names and values are unquoted. -/
def qslPair (nv : List Char) : Option (List Char × List Char) :=
  if nv = [] then none
  else
    match splitOnce '=' nv with
    | none => none
    | some (n, v) =>
      if v = [] then none else some (unquotePlus n, unquotePlus v)

/-- `urllib.parse.parse_qsl` with the default arguments used by `parse_qs`
(separator `'&'`). -/
def parseQsl (qs : List Char) : List (List Char × List Char) :=
  if qs = [] then [] else (qs.splitOn '&').filterMap qslPair

/-- First value stored under key `k` by `parse_qs` (`query[k][0]`):
the value of the first pair with that name. -/
def firstVal (k : List Char) (qsl : List (List Char × List Char)) :
    Option (List Char) :=
  (qsl.find? fun p => p.1 = k).map (·.2)

/-! ## `_normalize_facebook_url` (src/modules/scraper.py lines 46-62) -/

/-- `sorted(allowed_keys)` for `allowed_keys = {"story_fbid", "fbid", "id"}`. -/
def allowedKeys : List (List Char) := [['f','b','i','d'], ['i','d'],
  ['s','t','o','r','y','_','f','b','i','d']]

/-- The `kept` list comprehension of `_normalize_facebook_url`:
`f"{key}={query[key][0]}"` for each allow-listed key present in the
query, in sorted key order. -/
def keptPairs (qsl : List (List Char × List Char)) : List (List Char) :=
  allowedKeys.filterMap fun k => (firstVal k qsl).map fun v => k ++ '=' :: v

/-- The body of `_normalize_facebook_url` after `urljoin`+`urlparse`:
keep only allow-listed query keys (first value each, sorted key order),
drop params/fragment, strip a trailing slash from the path. -/
def normCore (p : UrlParseRes) : List Char :=
  let cleanQuery := List.intercalate ['&'] (keptPairs (parseQsl p.query))
  let path := rstripChar '/' p.path
  if cleanQuery ≠ [] then
    p.scheme ++ ':' :: '/' :: '/' :: p.netloc ++ path ++ '?' :: cleanQuery
  else
    p.scheme ++ ':' :: '/' :: '/' :: p.netloc ++ path

/-- `_normalize_facebook_url(raw_url, base_url)`; `none` models the
(caught-by-callers) `ValueError` from URL parsing. -/
def normalizeFacebookUrl (rawUrl baseUrl : String) : Option String := do
  let absolute ← pyUrljoin baseUrl.toList rawUrl.toList
  let parsed ← pyUrlparse absolute []
  return String.mk (normCore parsed)

/-! ## Content records and the extraction cascade (src/modules/scraper.py) -/

/-- A scraped content record (the `PostData` dict).  `scrapedAt` is optional
because the `batch_error` records built in `src/dashboard.py` carry no
`scraped_at` key; `targetUrl` models the `target_url` key attached by the
multi-target batch driver. -/
structure Post where
  url : String
  rawText : String
  comments : List String
  commentCount : Nat
  sourceType : String
  scrapedAt : Option String := none
  targetUrl : Option String := none
deriving Repr, DecidableEq

/-- `_fallback_content_url(base_url, raw_text, index)`: synthetic identity
from the md5 of `f"{base_url}|{raw_text.strip()}|{index}"`.  The md5 hex
digest itself is an opaque parameter `md5hex` (theorems hold for every
choice). -/
def fallbackContentUrl (md5hex : String → String) (baseUrl rawText : String)
    (index : Nat) : String :=
  let seed := baseUrl ++ "|" ++ pyStrip rawText ++ "|" ++ toString index
  let textHash := (md5hex seed).take 16
  pyRstripSlash baseUrl ++ "#content-" ++ textHash

/-- One post-candidate region of the rendered page, as observed through the
traversal capability: its inner text, the `href` attributes of the permalink
selector matches in `_extract_permalink`'s scan order (`none` models a link
whose `get_attribute("href")` returns `None`), and the stripped-later text
fragments matched by the comment selectors in scan order. -/
structure Container where
  innerText : String
  hrefs : List (Option String)
  commentCands : List String
deriving Repr, DecidableEq

/-- `_extract_comments(container, raw_text, max_comments=12)` main scan:
collect distinct, sufficiently long fragments that are not the post's own
text nor a substring of it, stopping as soon as `max_comments` is reached.
The `seen` set of the source always holds exactly the elements of
`comments`, so membership is checked on the accumulator. -/
def extractCommentsGo (rawText : String) (maxComments : Nat) :
    List String → List String → List String
  | acc, [] => acc
  | acc, cand :: rest =>
    let text := pyStrip cand
    if text = "" then extractCommentsGo rawText maxComments acc rest
    else if text.length < 3 then extractCommentsGo rawText maxComments acc rest
    else if text ∈ acc then extractCommentsGo rawText maxComments acc rest
    else if text = rawText ∨ pyIn text rawText then
      extractCommentsGo rawText maxComments acc rest
    else
      if maxComments ≤ (acc ++ [text]).length then acc ++ [text]
      else extractCommentsGo rawText maxComments (acc ++ [text]) rest

/-- `_extract_comments` (the expand-control clicks have no observable
effect on the collected data beyond the candidate list the page yields). -/
def extractComments (cands : List String) (rawText : String)
    (maxComments : Nat := 12) : List String :=
  extractCommentsGo rawText maxComments [] cands

/-- `_extract_permalink(container, base_url)`: first candidate href that is
non-falsy and survives `_normalize_facebook_url` (whose `ValueError` is
caught and skips the candidate). -/
def extractPermalink (hrefs : List (Option String)) (baseUrl : String) :
    Option String :=
  match hrefs with
  | [] => none
  | none :: rest => extractPermalink rest baseUrl
  | some h :: rest =>
    if h = "" then extractPermalink rest baseUrl
    else
      match normalizeFacebookUrl h baseUrl with
      | some u => some u
      | none => extractPermalink rest baseUrl

/-- `_collect_from_container_list` (src/modules/scraper.py lines 202-238):
walk the containers with their positional index, skip short texts, resolve
an identity (permalink or synthetic), consult-then-insert the dedup ledger,
and emit `container_post` records.  Returns the records and the grown
ledger. -/
def collectFromContainerList (md5hex : String → String) (now targetUrl : String) :
    List Container → Nat → List String → List Post × List String
  | [], _, seen => ([], seen)
  | c :: rest, i, seen =>
    let rawText := pyStrip c.innerText
    if rawText = "" ∨ rawText.length < 20 then
      collectFromContainerList md5hex now targetUrl rest (i + 1) seen
    else
      let permalink := extractPermalink c.hrefs targetUrl
      let resolvedUrl := permalink.getD (fallbackContentUrl md5hex targetUrl rawText i)
      if resolvedUrl ∈ seen then
        collectFromContainerList md5hex now targetUrl rest (i + 1) seen
      else
        let comments := extractComments c.commentCands rawText
        let payload : Post :=
          { url := resolvedUrl, rawText := rawText, comments := comments,
            commentCount := comments.length, sourceType := "container_post",
            scrapedAt := some now }
        let rest' :=
          collectFromContainerList md5hex now targetUrl rest (i + 1)
            (resolvedUrl :: seen)
        (payload :: rest'.1, rest'.2)

/-- `_collect_from_permalink_links` (lines 153-199): harvest up to 250
page anchors, normalize and dedup each href, and emit minimal
`permalink_fallback` records using the link text (or a placeholder). -/
def collectFromPermalinkLinksGo (now targetUrl : String) :
    List (Option String × String) → List String → List Post × List String
  | [], seen => ([], seen)
  | a :: rest, seen =>
    match a.1 with
    | none => collectFromPermalinkLinksGo now targetUrl rest seen
    | some h =>
      if h = "" then collectFromPermalinkLinksGo now targetUrl rest seen
      else
        match normalizeFacebookUrl h targetUrl with
        | none => collectFromPermalinkLinksGo now targetUrl rest seen
        | some normalized =>
          if normalized ∈ seen then
            collectFromPermalinkLinksGo now targetUrl rest seen
          else
            let linkText := pyStrip a.2
            let payload : Post :=
              { url := normalized,
                rawText :=
                  if linkText = "" then
                    "Permalink discovered from profile/page feed."
                  else linkText,
                comments := [], commentCount := 0,
                sourceType := "permalink_fallback", scrapedAt := some now }
            let rest' :=
              collectFromPermalinkLinksGo now targetUrl rest (normalized :: seen)
            (payload :: rest'.1, rest'.2)

/-- `_collect_from_permalink_links` with its `min(count, 250)` cap. -/
def collectFromPermalinkLinks (now targetUrl : String)
    (anchors : List (Option String × String)) (seen : List String) :
    List Post × List String :=
  collectFromPermalinkLinksGo now targetUrl (anchors.take 250) seen

/-- The containers matched by the three `locator_candidates` of
`_harvest_visible_posts` at one harvest call (one list per locator; the
positional index used by `_fallback_content_url` restarts per locator). -/
structure Snapshot where
  locators : List (List Container)
deriving Repr

/-- The `for locator in locator_candidates: batch.extend(...)` loop of
`_harvest_visible_posts`: run the container collector over every locator
list, sharing the dedup ledger. -/
def harvestLists (md5hex : String → String) (now targetUrl : String) :
    List (List Container) → List String → List Post × List String
  | [], seen => ([], seen)
  | loc :: rest, seen =>
    let b := collectFromContainerList md5hex now targetUrl loc 0 seen
    let r := harvestLists md5hex now targetUrl rest b.2
    (b.1 ++ r.1, r.2)

/-- `_harvest_visible_posts` (lines 260-282). -/
def harvestVisiblePosts (md5hex : String → String) (now targetUrl : String)
    (snap : Snapshot) (seen : List String) : List Post × List String :=
  harvestLists md5hex now targetUrl snap.locators seen

/-- `_collect_page_level_fallback` (lines 330-359).  The title/body reads
are individually wrapped in `try/except` in the source, so a failing read
(`none`) degrades to the empty string and the function itself never
raises. -/
def collectPageLevelFallback (now targetUrl : String)
    (titleRes bodyRes : Option String) : Post :=
  let title := match titleRes with | some t => pyStrip t | none => ""
  let bodyText := match bodyRes with | some b => pyStrip b | none => ""
  let snippetSource := if bodyText ≠ "" then bodyText else title
  let snippet0 :=
    pyStrip ((String.intercalate " " (pySplitWs snippetSource)).take 1200)
  let snippet :=
    if snippet0 = "" then
      "No extractable post containers found. Fallback page-level record."
    else snippet0
  { url := targetUrl, rawText := pyStrip (title ++ "\n\n" ++ snippet),
    comments := [], commentCount := 0, sourceType := "page_fallback",
    scrapedAt := some now }

/-- `_build_emergency_fallback` (lines 362-373). -/
def buildEmergencyFallback (now targetUrl : String) (reason : String := "") :
    Post :=
  let base := "No extractable post containers found. Emergency fallback record."
  { url := targetUrl,
    rawText := if reason ≠ "" then base ++ " Reason: " ++ reason else base,
    comments := [], commentCount := 0, sourceType := "emergency_fallback",
    scrapedAt := some now }

/-! ## The harvest loop of `scrape_group` (lines 399-503)

The rendering surface is abstracted as a `Sim`: it yields the page content
observed by each numbered harvest call and may inject an exception at each
await boundary inside the protective `try` block (navigation, either
harvest of a cycle, the click/scroll/settle interaction block, the
permalink fallback scan).  An exception raised inside a harvest loses that
harvest's records but keeps the ledger insertions already performed — since
the snapshots are arbitrary, processing the snapshot fully and then raising
covers every partial-failure interleaving of the source. -/

structure Sim where
  gotoFail : Option String
  page : Nat → Snapshot
  harvestFail : Nat → Option String
  interactFail : Nat → Option String
  anchors : List (Option String × String)
  permalinkFail : Option String
  pageTitle : Option String
  pageBody : Option String
  now : String

/-- State threaded through the run: the accumulated records, the dedup
ledger, and the index of the next harvest call. -/
structure RunSt where
  collected : List Post
  seen : List String
  t : Nat
deriving Repr

/-- One `collected.extend(await _harvest_visible_posts(...))` call.  On an
injected failure the records of this harvest are lost (the `extend` never
runs) but the ledger keeps the insertions. -/
def doHarvest (md5hex : String → String) (sim : Sim) (targetUrl : String)
    (st : RunSt) : RunSt × Option String :=
  let h := harvestVisiblePosts md5hex sim.now targetUrl (sim.page st.t) st.seen
  match sim.harvestFail st.t with
  | some e => (⟨st.collected, h.2, st.t + 1⟩, some e)
  | none => (⟨st.collected ++ h.1, h.2, st.t + 1⟩, none)

/-- The `for cycle in range(max_cycles)` loop (lines 428-461).  Returns the
final state, the `(before, after)` ledger sizes of each completed cycle,
and the first injected exception, if any.  A cycle interrupted by an
exception contributes no trace entry. -/
def cycleLoop (md5hex : String → String) (sim : Sim) (targetUrl : String)
    (minCycles : Nat) :
    Nat → Nat → Nat → RunSt → RunSt × List (Nat × Nat) × Option String
  | 0, _, _, st => (st, [], none)
  | fuel + 1, cycle, noGrowth, st =>
    let before := st.seen.length
    let h1 := doHarvest md5hex sim targetUrl st
    match h1.2 with
    | some e => (h1.1, [], some e)
    | none =>
      match sim.interactFail cycle with
      | some e => (h1.1, [], some e)
      | none =>
        let h2 := doHarvest md5hex sim targetUrl h1.1
        match h2.2 with
        | some e => (h2.1, [], some e)
        | none =>
          let after := h2.1.seen.length
          let noGrowth' := if before < after then 0 else noGrowth + 1
          if minCycles ≤ cycle + 1 ∧ 3 ≤ noGrowth' then
            (h2.1, [(before, after)], none)
          else
            let r :=
              cycleLoop md5hex sim targetUrl minCycles fuel (cycle + 1)
                noGrowth' h2.1
            (r.1, (before, after) :: r.2.1, r.2.2)

/-- Everything observable about one `scrape_group` run: the returned list,
the final dedup ledger, the exception caught by the top-level handler (with
the records accumulated at that moment), the per-cycle growth trace, and
whether the permalink / page-level fallback strategies ran, together with
the record totals at the two finalizing branch points. -/
structure ScrapeOutcome where
  posts : List Post
  ledger : List String
  caught : Option String
  collectedAtCatch : List Post
  cycleTrace : List (Nat × Nat)
  permalinkInvoked : Bool
  pageInvoked : Bool
  countFinal : Nat
  countAfterPermalink : Nat

/-- `scrape_group` (lines 399-503) as a run over a `Sim`: resilient
navigation, the adaptive cycle loop, one last harvest, the permalink-only
fallback when at most one record was collected, the page-level fallback
when none was, the top-level `except` converting an escaped exception into
the emergency record when nothing was collected, and the final
`if not collected` guard. -/
def scrapeGroupRunCore (md5hex : String → String) (sim : Sim)
    (targetUrl : String) (scrollMin scrollMax : Nat) : ScrapeOutcome :=
  let minCycles := max 1 scrollMin
  let maxCycles := max minCycles (scrollMax + 6)
  match sim.gotoFail with
  | some e =>
    { posts := [buildEmergencyFallback sim.now targetUrl e], ledger := [],
      caught := some e, collectedAtCatch := [], cycleTrace := [],
      permalinkInvoked := false, pageInvoked := false, countFinal := 0,
      countAfterPermalink := 0 }
  | none =>
    let r := cycleLoop md5hex sim targetUrl minCycles maxCycles 0 0 ⟨[], [], 0⟩
    match r.2.2 with
    | some e =>
      { posts :=
          if r.1.collected.isEmpty then
            [buildEmergencyFallback sim.now targetUrl e]
          else r.1.collected,
        ledger := r.1.seen, caught := some e,
        collectedAtCatch := r.1.collected, cycleTrace := r.2.1,
        permalinkInvoked := false, pageInvoked := false,
        countFinal := r.1.collected.length,
        countAfterPermalink := r.1.collected.length }
    | none =>
      let h := doHarvest md5hex sim targetUrl r.1
      match h.2 with
      | some e =>
        { posts :=
            if h.1.collected.isEmpty then
              [buildEmergencyFallback sim.now targetUrl e]
            else h.1.collected,
          ledger := h.1.seen, caught := some e,
          collectedAtCatch := h.1.collected, cycleTrace := r.2.1,
          permalinkInvoked := false, pageInvoked := false,
          countFinal := h.1.collected.length,
          countAfterPermalink := h.1.collected.length }
      | none =>
        if h.1.collected.length ≤ 1 then
          match sim.permalinkFail with
          | some e =>
            { posts :=
                if h.1.collected.isEmpty then
                  [buildEmergencyFallback sim.now targetUrl e]
                else h.1.collected,
              ledger :=
                (collectFromPermalinkLinks sim.now targetUrl sim.anchors
                  h.1.seen).2,
              caught := some e, collectedAtCatch := h.1.collected,
              cycleTrace := r.2.1, permalinkInvoked := true,
              pageInvoked := false, countFinal := h.1.collected.length,
              countAfterPermalink := h.1.collected.length }
          | none =>
            let pl :=
              collectFromPermalinkLinks sim.now targetUrl sim.anchors h.1.seen
            if (h.1.collected ++ pl.1).isEmpty then
              { posts :=
                  [collectPageLevelFallback sim.now targetUrl sim.pageTitle
                    sim.pageBody],
                ledger := pl.2, caught := none, collectedAtCatch := [],
                cycleTrace := r.2.1, permalinkInvoked := true,
                pageInvoked := true, countFinal := h.1.collected.length,
                countAfterPermalink := (h.1.collected ++ pl.1).length }
            else
              { posts := h.1.collected ++ pl.1, ledger := pl.2,
                caught := none, collectedAtCatch := [], cycleTrace := r.2.1,
                permalinkInvoked := true, pageInvoked := false,
                countFinal := h.1.collected.length,
                countAfterPermalink := (h.1.collected ++ pl.1).length }
        else
          { posts := h.1.collected, ledger := h.1.seen, caught := none,
            collectedAtCatch := [], cycleTrace := r.2.1,
            permalinkInvoked := false, pageInvoked := false,
            countFinal := h.1.collected.length,
            countAfterPermalink := h.1.collected.length }

/-- `scrape_group` with the trailing `if not collected` guard (lines
500-501) applied to the core run. -/
def scrapeGroupRun (md5hex : String → String) (sim : Sim)
    (targetUrl : String) (scrollMin scrollMax : Nat) : ScrapeOutcome :=
  let out := scrapeGroupRunCore md5hex sim targetUrl scrollMin scrollMax
  if out.posts.isEmpty then
    { out with posts := [buildEmergencyFallback sim.now targetUrl] }
  else out

/-- The record list `scrape_group` returns. -/
def scrapeGroup (md5hex : String → String) (sim : Sim) (targetUrl : String)
    (scrollMin scrollMax : Nat) : List Post :=
  (scrapeGroupRun md5hex sim targetUrl scrollMin scrollMax).posts

/-! ## The multi-target batch driver (src/dashboard.py lines 127-163)

`scrape_group` is awaited inside `scrape_one`; its outcome for a given
input URL (including exceptions escaping it, e.g. from the browser-launch
phase that sits outside its protective `try`) is abstracted as a function
`outcome : String → Except String (List Post)`. -/

/-- `scrape_one(url)`: tag every row of a successful run with its input
URL, or convert a raised exception into the single `batch_error` record. -/
def scrapeOne (outcome : String → Except String (List Post)) (url : String) :
    List Post :=
  match outcome url with
  | .ok rows => rows.map fun r => { r with targetUrl := some url }
  | .error e =>
    [{ url := url, targetUrl := some url,
       rawText := "Scrape failed for input URL. Reason: " ++
         (if pyStrip e ≠ "" then pyStrip e else e),
       comments := [], commentCount := 0, sourceType := "batch_error" }]

/-- The list `batches` produced by `asyncio.gather(*tasks)`: one entry per
input URL, in order. -/
def runMultiScrapeBatches (outcome : String → Except String (List Post))
    (urls : List String) : List (List Post) :=
  urls.map (scrapeOne outcome)

/-- `_run_multi_scrape_sync`: the merged flat list. -/
def runMultiScrape (outcome : String → Except String (List Post))
    (urls : List String) : List Post :=
  (runMultiScrapeBatches outcome urls).flatten

/-! ## General helper lemmas -/

/-- Reflexivity of the leading-run test. -/
lemma listIsPre_refl (l : List Char) : listIsPre l l = true := by
  induction l with
  | nil => rfl
  | cons c t ih => simp [listIsPre, ih]

/-- A list is a Python-substring of anything that ends with it. -/
lemma listHasSub_append_self (x n : List Char) :
    listHasSub n (x ++ n) = true := by
  induction x with
  | nil =>
    cases n with
    | nil => rfl
    | cons c t => simp [listHasSub, listIsPre_refl]
  | cons c t ih =>
    cases n with
    | nil => simp [listHasSub, listIsPre]
    | cons d u => simp [listHasSub] at ih ⊢; exact Or.inr ih

/-- `getD` through `map`, for indices in range. -/
lemma mapGetD {α β : Type} (f : α → β) (l : List α) (i : Nat) (d : α)
    (d' : β) (hi : i < l.length) :
    (l.map f).getD i d' = f (l.getD i d) := by
  induction l generalizing i with
  | nil => simp at hi
  | cons a t ih =>
    cases i with
    | zero => simp
    | succ j =>
      simp only [List.map_cons, List.getD_cons_succ]
      exact ih j (by simpa using hi)

/-! ## C7: comment sub-extraction -/

/-- Invariant of the `_extract_comments` scan loop: fragments that are the
post text, substrings of it, too short, or duplicates are never added, and
the accumulator never grows past `maxComments` once it is below it. -/
lemma extractCommentsGo_spec (rawText : String) (m : Nat)
    (cands : List String) :
    ∀ acc : List String,
      (∀ c ∈ acc, c ≠ rawText ∧ pyIn c rawText = false ∧ 3 ≤ c.length) →
      acc.Nodup → acc.length < m →
      (∀ c ∈ extractCommentsGo rawText m acc cands,
          c ≠ rawText ∧ pyIn c rawText = false ∧ 3 ≤ c.length) ∧
      (extractCommentsGo rawText m acc cands).Nodup ∧
      (extractCommentsGo rawText m acc cands).length ≤ m := by
  induction cands with
  | nil =>
    intro acc hacc hnd hlen
    exact ⟨hacc, hnd, Nat.le_of_lt hlen⟩
  | cons cand rest ih =>
    intro acc hacc hnd hlen
    rw [extractCommentsGo]
    split_ifs with h1 h2 h3 h4 h5
    · exact ih acc hacc hnd hlen
    · exact ih acc hacc hnd hlen
    · exact ih acc hacc hnd hlen
    · exact ih acc hacc hnd hlen
    · push_neg at h4
      have hacc' : ∀ c ∈ acc ++ [pyStrip cand],
          c ≠ rawText ∧ pyIn c rawText = false ∧ 3 ≤ c.length := by
        intro c hc
        rcases List.mem_append.1 hc with hc | hc
        · exact hacc c hc
        · simp at hc
          subst hc
          exact ⟨h4.1, by simpa using h4.2, Nat.le_of_not_lt h2⟩
      have hnd' : (acc ++ [pyStrip cand]).Nodup := by
        simp [List.nodup_append, hnd]
        exact h3
      refine ⟨hacc', hnd', ?_⟩
      simp only [List.length_append, List.length_singleton]
      omega
    · push_neg at h4
      have hacc' : ∀ c ∈ acc ++ [pyStrip cand],
          c ≠ rawText ∧ pyIn c rawText = false ∧ 3 ≤ c.length := by
        intro c hc
        rcases List.mem_append.1 hc with hc | hc
        · exact hacc c hc
        · simp at hc
          subst hc
          exact ⟨h4.1, by simpa using h4.2, Nat.le_of_not_lt h2⟩
      have hnd' : (acc ++ [pyStrip cand]).Nodup := by
        simp [List.nodup_append, hnd]
        exact h3
      have hlen' : (acc ++ [pyStrip cand]).length < m := by
        simp only [List.length_append, List.length_singleton] at h5 ⊢
        omega
      exact ih (acc ++ [pyStrip cand]) hacc' hnd' hlen'

/-- C7.  For every post container and post raw text, the comment list
returned by comment sub-extraction contains no fragment equal to, or a
substring of, the post's own raw text, no duplicates, no fragment shorter
than the minimum length (3 characters), and never more entries than the
configured maximum comment count (12 at every call site of the source). -/
theorem C7_comment_extraction (cands : List String) (rawText : String)
    (m : Nat) (hm : 0 < m) :
    (∀ c ∈ extractComments cands rawText m,
        c ≠ rawText ∧ pyIn c rawText = false ∧ 3 ≤ c.length) ∧
    (extractComments cands rawText m).Nodup ∧
    (extractComments cands rawText m).length ≤ m := by
  exact extractCommentsGo_spec rawText m cands [] (by simp) (by simp) hm

/-- Witness for C7 at a concrete input: a candidate list containing the
post text itself, a fragment of it, a short fragment, a duplicate and two
genuine comments. -/
theorem C7_comment_extraction_witness :
    (∀ c ∈ extractComments
        ["This is the post body text", "post body", "ok", "Nice writeup!",
         "Nice writeup!", "Totally agree with this"]
        "This is the post body text" 12,
        c ≠ "This is the post body text" ∧
        pyIn c "This is the post body text" = false ∧ 3 ≤ c.length) ∧
    (extractComments
        ["This is the post body text", "post body", "ok", "Nice writeup!",
         "Nice writeup!", "Totally agree with this"]
        "This is the post body text" 12).Nodup ∧
    (extractComments
        ["This is the post body text", "post body", "ok", "Nice writeup!",
         "Nice writeup!", "Totally agree with this"]
        "This is the post body text" 12).length ≤ 12 :=
  C7_comment_extraction
    ["This is the post body text", "post body", "ok", "Nice writeup!",
     "Nice writeup!", "Totally agree with this"]
    "This is the post body text" 12 (by decide)

/-! ## C6: multi-target batch isolation -/

/-- C6.  A multi-target batch has exactly one top-level entry per input
URL (the gather completes every task); a target whose run raises
contributes exactly one `batch_error` record carrying that input URL; and
a target's entry depends only on its own run's outcome, so a sibling's
failure can neither cancel nor alter it. -/
theorem C6_batch_isolation (outcome : String → Except String (List Post))
    (urls : List String) :
    (runMultiScrapeBatches outcome urls).length = urls.length ∧
    (∀ i e, i < urls.length → outcome (urls.getD i "") = .error e →
      ((runMultiScrapeBatches outcome urls).getD i []).length = 1 ∧
      ∀ p ∈ (runMultiScrapeBatches outcome urls).getD i [],
        p.sourceType = "batch_error" ∧ p.url = urls.getD i "" ∧
        p.targetUrl = some (urls.getD i "")) ∧
    (∀ (outcome' : String → Except String (List Post)) (i : Nat),
      i < urls.length → outcome (urls.getD i "") = outcome' (urls.getD i "") →
      (runMultiScrapeBatches outcome urls).getD i [] =
        (runMultiScrapeBatches outcome' urls).getD i []) := by
  refine ⟨by simp [runMultiScrapeBatches], ?_, ?_⟩
  · intro i e hi he
    have hgd := mapGetD (scrapeOne outcome) urls i "" [] hi
    rw [runMultiScrapeBatches, hgd, scrapeOne, he]
    constructor
    · rfl
    · intro p hp
      simp at hp
      subst hp
      refine ⟨rfl, ?_, ?_⟩ <;> simp [List.getD]
  · intro outcome' i hi heq
    have h1 := mapGetD (scrapeOne outcome) urls i "" [] hi
    have h2 := mapGetD (scrapeOne outcome') urls i "" [] hi
    rw [runMultiScrapeBatches, h1, runMultiScrapeBatches, h2,
      scrapeOne, scrapeOne, heq]

/-- Concrete outcome function for the C6 witness: target 2 of 3 raises
during navigation, the others return one record each. -/
def c6Outcome : String → Except String (List Post) := fun u =>
  if u = "https://fb.com/g/2" then .error "navigation timeout"
  else
    .ok [{ url := u ++ "/posts/1", rawText := "A post body long enough.",
           comments := [], commentCount := 0,
           sourceType := "container_post", scrapedAt := some "t0" }]

/-- Witness for C6: a batch of 3 targets where target 2 raises yields 3
top-level entries, entry 2 being a single `batch_error` record for that
URL, and entry 1 is unaffected when the failure of target 2 is replaced by
a success. -/
theorem C6_batch_isolation_witness :
    (runMultiScrapeBatches c6Outcome
        ["https://fb.com/g/1", "https://fb.com/g/2", "https://fb.com/g/3"]).length =
      ["https://fb.com/g/1", "https://fb.com/g/2", "https://fb.com/g/3"].length ∧
    (((runMultiScrapeBatches c6Outcome
        ["https://fb.com/g/1", "https://fb.com/g/2", "https://fb.com/g/3"]).getD 1 []).length = 1 ∧
      ∀ p ∈ (runMultiScrapeBatches c6Outcome
        ["https://fb.com/g/1", "https://fb.com/g/2", "https://fb.com/g/3"]).getD 1 [],
        p.sourceType = "batch_error" ∧
        p.url = ["https://fb.com/g/1", "https://fb.com/g/2", "https://fb.com/g/3"].getD 1 "" ∧
        p.targetUrl = some (["https://fb.com/g/1", "https://fb.com/g/2", "https://fb.com/g/3"].getD 1 "")) ∧
    (runMultiScrapeBatches c6Outcome
        ["https://fb.com/g/1", "https://fb.com/g/2", "https://fb.com/g/3"]).getD 0 [] =
      (runMultiScrapeBatches (fun _ => c6Outcome "https://fb.com/g/1")
        ["https://fb.com/g/1", "https://fb.com/g/2", "https://fb.com/g/3"]).getD 0 [] := by
  obtain ⟨h1, h2, h3⟩ := C6_batch_isolation c6Outcome
    ["https://fb.com/g/1", "https://fb.com/g/2", "https://fb.com/g/3"]
  refine ⟨h1, h2 1 "navigation timeout" (by decide) (by rfl), ?_⟩
  exact h3 (fun _ => c6Outcome "https://fb.com/g/1") 0 (by decide) (by rfl)

/-! ## Dedup-ledger and record invariants (C1, C8, C10) -/

/-- Record-level invariants established at creation: `comment_count` equals
the length of the comments list, and a `container_post` record has a
non-empty raw text of at least 20 characters. -/
def GoodPost (p : Post) : Prop :=
  p.commentCount = p.comments.length ∧
  (p.sourceType = "container_post" → p.rawText ≠ "" ∧ 20 ≤ p.rawText.length)

/-- The consult-then-insert contract of one collector invocation on the
ledger `seen`: the ledger only grows and stays duplicate-free, and the
emitted batch has pairwise distinct identity URLs, all absent from the
incoming ledger and recorded in the outgoing one, with well-formed
records. -/
def StepOk (seen : List String) (out : List Post × List String) : Prop :=
  (∀ u ∈ seen, u ∈ out.2) ∧
  (seen.Nodup → out.2.Nodup) ∧
  (∀ p ∈ out.1, p.url ∈ out.2 ∧ p.url ∉ seen ∧ GoodPost p) ∧
  (out.1.map Post.url).Nodup

lemma stepOk_nil (seen : List String) : StepOk seen ([], seen) := by
  refine ⟨fun u hu => hu, fun h => h, ?_, by simp⟩
  intro p hp
  simp at hp

/-- Two consecutive collector invocations sharing the ledger compose. -/
lemma stepOk_comp {s0 s1 s2 : List String} {b1 b2 : List Post}
    (h1 : StepOk s0 (b1, s1)) (h2 : StepOk s1 (b2, s2)) :
    StepOk s0 (b1 ++ b2, s2) := by
  obtain ⟨m1, n1, p1, d1⟩ := h1
  obtain ⟨m2, n2, p2, d2⟩ := h2
  refine ⟨fun u hu => m2 u (m1 u hu), fun h => n2 (n1 h), ?_, ?_⟩
  · intro p hp
    rcases List.mem_append.1 hp with hp | hp
    · obtain ⟨hin, hout, hg⟩ := p1 p hp
      exact ⟨m2 _ hin, hout, hg⟩
    · obtain ⟨hin, hout, hg⟩ := p2 p hp
      exact ⟨hin, fun hc => hout (m1 _ hc), hg⟩
  · rw [List.map_append, List.nodup_append]
    refine ⟨d1, d2, ?_⟩
    intro u hu1 hu2
    simp only [List.mem_map] at hu1 hu2
    obtain ⟨p, hp, rfl⟩ := hu1
    obtain ⟨q, hq, hqu⟩ := hu2
    have hin : p.url ∈ s1 := (p1 p hp).1
    have hout : q.url ∉ s1 := (p2 q hq).2.1
    exact hout (hqu ▸ hin)

/-- The container collector satisfies the ledger contract. -/
lemma collectFromContainerList_stepOk (md5hex : String → String)
    (now targetUrl : String) (cs : List Container) :
    ∀ (i : Nat) (seen : List String),
      StepOk seen (collectFromContainerList md5hex now targetUrl cs i seen) := by
  induction cs with
  | nil => intro i seen; exact stepOk_nil seen
  | cons c rest ih =>
    intro i seen
    rw [collectFromContainerList]
    split_ifs with h1
    · exact ih (i + 1) seen
    · dsimp only
      split_ifs with h2
      · exact ih (i + 1) seen
      · obtain ⟨mr, nr, pr, dr⟩ := ih (i + 1)
          (((extractPermalink c.hrefs targetUrl).getD
            (fallbackContentUrl md5hex targetUrl (pyStrip c.innerText) i)) :: seen)
        push_neg at h1
        refine ⟨?_, ?_, ?_, ?_⟩
        · intro u hu
          exact mr u (List.mem_cons_of_mem _ hu)
        · intro hnd
          exact nr (List.nodup_cons.2 ⟨h2, hnd⟩)
        · intro p hp
          rcases List.mem_cons.1 hp with hp | hp
          · subst hp
            refine ⟨mr _ (List.mem_cons_self _ _), h2, ?_, ?_⟩
            · rfl
            · intro _
              exact ⟨h1.1, h1.2⟩
          · obtain ⟨hin, hout, hg⟩ := pr p hp
            exact ⟨hin, fun hc => hout (List.mem_cons_of_mem _ hc), hg⟩
        · rw [List.map_cons, List.nodup_cons]
          refine ⟨?_, dr⟩
          intro hc
          simp only [List.mem_map] at hc
          obtain ⟨q, hq, hqu⟩ := hc
          exact (pr q hq).2.1 (hqu ▸ List.mem_cons_self _ _)

/-- The permalink-link collector satisfies the ledger contract. -/
lemma collectFromPermalinkLinksGo_stepOk (now targetUrl : String)
    (anchors : List (Option String × String)) :
    ∀ seen : List String,
      StepOk seen (collectFromPermalinkLinksGo now targetUrl anchors seen) := by
  induction anchors with
  | nil => intro seen; exact stepOk_nil seen
  | cons a rest ih =>
    intro seen
    rw [collectFromPermalinkLinksGo]
    cases ha : a.1 with
    | none => exact ih seen
    | some h =>
      dsimp only
      by_cases h1 : h = ""
      · rw [if_pos h1]; exact ih seen
      · rw [if_neg h1]
        cases hn : normalizeFacebookUrl h targetUrl with
        | none => exact ih seen
        | some normalized =>
          dsimp only
          by_cases h2 : normalized ∈ seen
          · rw [if_pos h2]; exact ih seen
          · rw [if_neg h2]
            obtain ⟨mr, nr, pr, dr⟩ := ih (normalized :: seen)
            refine ⟨?_, ?_, ?_, ?_⟩
            · intro u hu
              exact mr u (List.mem_cons_of_mem _ hu)
            · intro hnd
              exact nr (List.nodup_cons.2 ⟨h2, hnd⟩)
            · intro p hp
              rcases List.mem_cons.1 hp with hp | hp
              · subst hp
                refine ⟨mr _ (List.mem_cons_self _ _), h2, rfl, ?_⟩
                intro hcp
                simp at hcp
              · obtain ⟨hin, hout, hg⟩ := pr p hp
                exact ⟨hin, fun hc => hout (List.mem_cons_of_mem _ hc), hg⟩
            · rw [List.map_cons, List.nodup_cons]
              refine ⟨?_, dr⟩
              intro hc
              simp only [List.mem_map] at hc
              obtain ⟨q, hq, hqu⟩ := hc
              exact (pr q hq).2.1 (hqu ▸ List.mem_cons_self _ _)

lemma collectFromPermalinkLinks_stepOk (now targetUrl : String)
    (anchors : List (Option String × String)) (seen : List String) :
    StepOk seen (collectFromPermalinkLinks now targetUrl anchors seen) :=
  collectFromPermalinkLinksGo_stepOk now targetUrl (anchors.take 250) seen

/-- One full `_harvest_visible_posts` call satisfies the ledger contract. -/
lemma harvestLists_stepOk (md5hex : String → String) (now targetUrl : String)
    (ls : List (List Container)) :
    ∀ seen : List String,
      StepOk seen (harvestLists md5hex now targetUrl ls seen) := by
  induction ls with
  | nil => intro seen; exact stepOk_nil seen
  | cons loc rest ih =>
    intro seen
    rw [harvestLists]
    exact stepOk_comp (collectFromContainerList_stepOk md5hex now targetUrl loc 0 seen)
      (ih (collectFromContainerList md5hex now targetUrl loc 0 seen).2)

lemma harvestVisiblePosts_stepOk (md5hex : String → String)
    (now targetUrl : String) (snap : Snapshot) (seen : List String) :
    StepOk seen (harvestVisiblePosts md5hex now targetUrl snap seen) :=
  harvestLists_stepOk md5hex now targetUrl snap.locators seen

/-- Run-state invariant: duplicate-free ledger, pairwise distinct record
URLs all present in the ledger, and well-formed records. -/
def RunInv (st : RunSt) : Prop :=
  st.seen.Nodup ∧ (st.collected.map Post.url).Nodup ∧
  ∀ p ∈ st.collected, p.url ∈ st.seen ∧ GoodPost p

/-- Appending a collector batch to the run state preserves the invariant. -/
lemma runInv_extend {st : RunSt} {out : List Post × List String}
    (hst : RunInv st) (hstep : StepOk st.seen out) :
    RunInv ⟨st.collected ++ out.1, out.2, st.t + 1⟩ := by
  obtain ⟨hnd, hcnd, hc⟩ := hst
  obtain ⟨m, n, p, d⟩ := hstep
  refine ⟨n hnd, ?_, ?_⟩
  · rw [List.map_append, List.nodup_append]
    refine ⟨hcnd, d, ?_⟩
    intro u hu1 hu2
    simp only [List.mem_map] at hu1 hu2
    obtain ⟨q, hq, rfl⟩ := hu1
    obtain ⟨q', hq', hqu⟩ := hu2
    exact (p q' hq').2.1 (hqu ▸ (hc q hq).1)
  · intro q hq
    rcases List.mem_append.1 hq with hq | hq
    · exact ⟨m _ (hc q hq).1, (hc q hq).2⟩
    · exact ⟨(p q hq).1, (p q hq).2.2⟩

/-- A failed harvest keeps the records and only grows the ledger. -/
lemma runInv_keep {st : RunSt} {out : List Post × List String}
    (hst : RunInv st) (hstep : StepOk st.seen out) :
    RunInv ⟨st.collected, out.2, st.t + 1⟩ := by
  obtain ⟨hnd, hcnd, hc⟩ := hst
  obtain ⟨m, n, _, _⟩ := hstep
  exact ⟨n hnd, hcnd, fun p hp => ⟨m _ (hc p hp).1, (hc p hp).2⟩⟩

/-- `doHarvest` preserves the run-state invariant on both branches. -/
lemma doHarvest_inv (md5hex : String → String) (sim : Sim)
    (targetUrl : String) (st : RunSt) (hst : RunInv st) :
    RunInv (doHarvest md5hex sim targetUrl st).1 := by
  rw [doHarvest]
  have hstep := harvestVisiblePosts_stepOk md5hex sim.now targetUrl
    (sim.page st.t) st.seen
  match sim.harvestFail st.t with
  | some e => exact runInv_keep hst hstep
  | none => exact runInv_extend hst hstep

/-- The cycle loop preserves the run-state invariant. -/
lemma cycleLoop_inv (md5hex : String → String) (sim : Sim)
    (targetUrl : String) (minCycles : Nat) :
    ∀ (fuel cycle noGrowth : Nat) (st : RunSt), RunInv st →
      RunInv (cycleLoop md5hex sim targetUrl minCycles fuel cycle noGrowth st).1 := by
  intro fuel
  induction fuel with
  | zero => intro cycle noGrowth st hst; exact hst
  | succ fuel ih =>
    intro cycle noGrowth st hst
    rw [cycleLoop]
    have h1 := doHarvest_inv md5hex sim targetUrl st hst
    dsimp only
    cases (doHarvest md5hex sim targetUrl st).2 with
    | some e => exact h1
    | none =>
      dsimp only
      cases sim.interactFail cycle with
      | some e => exact h1
      | none =>
        dsimp only
        have h2 := doHarvest_inv md5hex sim targetUrl _ h1
        cases (doHarvest md5hex sim targetUrl
            (doHarvest md5hex sim targetUrl st).1).2 with
        | some e => exact h2
        | none =>
          dsimp only
          split_ifs
          all_goals first
            | exact h2
            | exact ih _ _ _ h2

lemma runInv_init : RunInv ⟨[], [], 0⟩ := by
  refine ⟨List.nodup_nil, by simp, ?_⟩
  intro p hp
  simp at hp

lemma goodPost_emergency (now tgt reason : String) :
    GoodPost (buildEmergencyFallback now tgt reason) := by
  refine ⟨rfl, ?_⟩
  intro h
  simp [buildEmergencyFallback] at h

lemma goodPost_pageFallback (now tgt : String) (t b : Option String) :
    GoodPost (collectPageLevelFallback now tgt t b) := by
  refine ⟨rfl, ?_⟩
  intro h
  simp [collectPageLevelFallback] at h

/-- The `emergency_fallback` raw text embeds the error reason as a
(Python-)substring. -/
lemma emergency_embeds_reason (now tgt e : String) :
    pyIn e (buildEmergencyFallback now tgt e).rawText = true := by
  by_cases he : e = ""
  · subst he
    show pyIn ""
      "No extractable post containers found. Emergency fallback record." = true
    decide
  · have : (buildEmergencyFallback now tgt e).rawText =
        ("No extractable post containers found. Emergency fallback record." ++
          " Reason: ") ++ e := by
      simp [buildEmergencyFallback, he, String.append_assoc]
    rw [this, pyIn]
    have hd : ((("No extractable post containers found. Emergency fallback record." ++
        " Reason: ") ++ e)).toList =
        ("No extractable post containers found. Emergency fallback record." ++
          " Reason: ").toList ++ e.toList := String.data_append _ _
    rw [hd]
    exact listHasSub_append_self _ _

/-- The run-outcome properties shared by every branch of the scrape run:
duplicate-free ledger, pairwise distinct record identity URLs, well-formed
records, and the emergency conversion of an error caught with nothing
collected. -/
def OutcomeSpec (now tgt : String) (o : ScrapeOutcome) : Prop :=
  o.ledger.Nodup ∧ (o.posts.map Post.url).Nodup ∧
  (∀ p ∈ o.posts, GoodPost p) ∧
  (∀ e, o.caught = some e → o.collectedAtCatch = [] →
    o.posts = [buildEmergencyFallback now tgt e])

/-- Properties of the outcome record built by each `except` branch. -/
lemma catchOutcome_spec {o : ScrapeOutcome} (now tgt e : String)
    (c : List Post) (s : List String)
    (hposts : o.posts = if c.isEmpty then [buildEmergencyFallback now tgt e]
      else c)
    (hledger : o.ledger = s) (hcaught : o.caught = some e)
    (hcatch : o.collectedAtCatch = c)
    (hnd : s.Nodup) (hcnd : (c.map Post.url).Nodup)
    (hgood : ∀ p ∈ c, GoodPost p) :
    OutcomeSpec now tgt o := by
  refine ⟨hledger ▸ hnd, ?_, ?_, ?_⟩
  · rw [hposts]
    by_cases hce : c.isEmpty
    · rw [if_pos hce]; simp
    · rw [if_neg hce]; exact hcnd
  · intro p hp
    rw [hposts] at hp
    by_cases hce : c.isEmpty
    · rw [if_pos hce] at hp
      simp at hp
      subst hp
      exact goodPost_emergency _ _ _
    · rw [if_neg hce] at hp
      exact hgood p hp
  · intro e' he' hemp
    rw [hcaught] at he'
    injection he' with he'
    subst he'
    rw [hcatch] at hemp
    subst hemp
    rw [hposts, if_pos (by rfl)]

/-- Properties of the outcome record of a branch that caught nothing. -/
lemma successOutcome_spec {o : ScrapeOutcome} (now tgt : String)
    (s : List String)
    (hledger : o.ledger = s) (hcaught : o.caught = none)
    (hnd : s.Nodup) (hcnd : (o.posts.map Post.url).Nodup)
    (hgood : ∀ p ∈ o.posts, GoodPost p) :
    OutcomeSpec now tgt o := by
  refine ⟨hledger ▸ hnd, hcnd, hgood, ?_⟩
  intro e' he'
  rw [hcaught] at he'
  exact absurd he' (by simp)

/-- Master invariants of one core `scrape_group` run. -/
lemma scrapeGroupRunCore_spec (md5hex : String → String) (sim : Sim)
    (targetUrl : String) (scrollMin scrollMax : Nat) :
    OutcomeSpec sim.now targetUrl
      (scrapeGroupRunCore md5hex sim targetUrl scrollMin scrollMax) := by
  rw [scrapeGroupRunCore]
  dsimp only
  cases hg : sim.gotoFail with
  | some e =>
    exact catchOutcome_spec sim.now targetUrl e [] [] rfl rfl rfl rfl
      (by simp) (by simp) (by intro p hp; simp at hp)
  | none =>
    dsimp only
    have hr := cycleLoop_inv md5hex sim targetUrl (max 1 scrollMin)
      (max (max 1 scrollMin) (scrollMax + 6)) 0 0 ⟨[], [], 0⟩ runInv_init
    cases (cycleLoop md5hex sim targetUrl (max 1 scrollMin)
        (max (max 1 scrollMin) (scrollMax + 6)) 0 0 ⟨[], [], 0⟩).2.2 with
    | some e =>
      dsimp only
      exact catchOutcome_spec sim.now targetUrl e _ _ rfl rfl rfl rfl
        hr.1 hr.2.1 (fun p hp => (hr.2.2 p hp).2)
    | none =>
      dsimp only
      have hh := doHarvest_inv md5hex sim targetUrl _ hr
      cases (doHarvest md5hex sim targetUrl
          (cycleLoop md5hex sim targetUrl (max 1 scrollMin)
            (max (max 1 scrollMin) (scrollMax + 6)) 0 0 ⟨[], [], 0⟩).1).2 with
      | some e =>
        dsimp only
        exact catchOutcome_spec sim.now targetUrl e _ _ rfl rfl rfl rfl
          hh.1 hh.2.1 (fun p hp => (hh.2.2 p hp).2)
      | none =>
        dsimp only
        have hpl := collectFromPermalinkLinks_stepOk sim.now targetUrl
          sim.anchors (doHarvest md5hex sim targetUrl
            (cycleLoop md5hex sim targetUrl (max 1 scrollMin)
              (max (max 1 scrollMin) (scrollMax + 6)) 0 0
                ⟨[], [], 0⟩).1).1.seen
        by_cases hle : (doHarvest md5hex sim targetUrl
            (cycleLoop md5hex sim targetUrl (max 1 scrollMin)
              (max (max 1 scrollMin) (scrollMax + 6)) 0 0
                ⟨[], [], 0⟩).1).1.collected.length ≤ 1
        · rw [if_pos hle]
          cases sim.permalinkFail with
          | some e =>
            dsimp only
            exact catchOutcome_spec sim.now targetUrl e _ _ rfl rfl rfl rfl
              (hpl.2.1 hh.1) hh.2.1 (fun p hp => (hh.2.2 p hp).2)
          | none =>
            dsimp only
            have hext := runInv_extend hh hpl
            by_cases hce : ((doHarvest md5hex sim targetUrl
                (cycleLoop md5hex sim targetUrl (max 1 scrollMin)
                  (max (max 1 scrollMin) (scrollMax + 6)) 0 0
                    ⟨[], [], 0⟩).1).1.collected ++
                (collectFromPermalinkLinks sim.now targetUrl sim.anchors
                  (doHarvest md5hex sim targetUrl
                    (cycleLoop md5hex sim targetUrl (max 1 scrollMin)
                      (max (max 1 scrollMin) (scrollMax + 6)) 0 0
                        ⟨[], [], 0⟩).1).1.seen).1).isEmpty
            · rw [if_pos hce]
              refine successOutcome_spec sim.now targetUrl _ rfl rfl
                (hpl.2.1 hh.1) (by simp) ?_
              intro p hp
              simp only [List.mem_singleton] at hp
              rw [hp]
              exact goodPost_pageFallback _ _ _ _
            · rw [if_neg hce]
              exact successOutcome_spec sim.now targetUrl _ rfl rfl
                (hpl.2.1 hh.1) hext.2.1 (fun p hp => (hext.2.2 p hp).2)
        · rw [if_neg hle]
          exact successOutcome_spec sim.now targetUrl _ rfl rfl
            hh.1 hh.2.1 (fun p hp => (hh.2.2 p hp).2)

/-- The trailing `if not collected` guard: posts of the full run. -/
lemma scrapeGroupRun_posts (md5hex : String → String) (sim : Sim)
    (targetUrl : String) (scrollMin scrollMax : Nat) :
    (scrapeGroupRun md5hex sim targetUrl scrollMin scrollMax).posts =
      (if (scrapeGroupRunCore md5hex sim targetUrl scrollMin scrollMax).posts.isEmpty
        then [buildEmergencyFallback sim.now targetUrl]
        else (scrapeGroupRunCore md5hex sim targetUrl scrollMin scrollMax).posts) := by
  rw [scrapeGroupRun]
  split_ifs with h <;> simp [h]

lemma scrapeGroupRun_fields (md5hex : String → String) (sim : Sim)
    (targetUrl : String) (scrollMin scrollMax : Nat) :
    (scrapeGroupRun md5hex sim targetUrl scrollMin scrollMax).ledger =
      (scrapeGroupRunCore md5hex sim targetUrl scrollMin scrollMax).ledger ∧
    (scrapeGroupRun md5hex sim targetUrl scrollMin scrollMax).caught =
      (scrapeGroupRunCore md5hex sim targetUrl scrollMin scrollMax).caught ∧
    (scrapeGroupRun md5hex sim targetUrl scrollMin scrollMax).collectedAtCatch =
      (scrapeGroupRunCore md5hex sim targetUrl scrollMin scrollMax).collectedAtCatch := by
  rw [scrapeGroupRun]
  split_ifs <;> exact ⟨rfl, rfl, rfl⟩

/-- All records a full run returns are well-formed. -/
lemma scrapeGroup_goodPost (md5hex : String → String) (sim : Sim)
    (targetUrl : String) (scrollMin scrollMax : Nat) :
    ∀ p ∈ scrapeGroup md5hex sim targetUrl scrollMin scrollMax, GoodPost p := by
  intro p hp
  rw [scrapeGroup, scrapeGroupRun_posts] at hp
  split_ifs at hp with h
  · simp at hp
    subst hp
    exact goodPost_emergency _ _ _
  · exact (scrapeGroupRunCore_spec md5hex sim targetUrl scrollMin scrollMax).2.2.1
      p hp

/-! ## C1: the dedup ledger and output identity URLs -/

/-- C1.  For every run of `scrape_group` — over every rendering-surface
behaviour, including injected exceptions — the dedup ledger (`seen_urls`)
ends with no duplicate identity string (and, growing only by
consult-then-insert, never holds one at any point), and the identity URLs
of the returned records are pairwise distinct. -/
theorem C1_dedup_ledger (md5hex : String → String) (sim : Sim)
    (targetUrl : String) (scrollMin scrollMax : Nat) :
    (scrapeGroupRun md5hex sim targetUrl scrollMin scrollMax).ledger.Nodup ∧
    ((scrapeGroup md5hex sim targetUrl scrollMin scrollMax).map
      Post.url).Nodup := by
  obtain ⟨hled, hcaught, hcat⟩ :=
    scrapeGroupRun_fields md5hex sim targetUrl scrollMin scrollMax
  obtain ⟨h1, h2, _, _⟩ :=
    scrapeGroupRunCore_spec md5hex sim targetUrl scrollMin scrollMax
  refine ⟨hled ▸ h1, ?_⟩
  rw [scrapeGroup, scrapeGroupRun_posts]
  split_ifs with h
  · simp
  · exact h2

/-! ## C8: comment_count equals the comments length -/

/-- C8.  Every record produced with source strategy tag `container_post`
has `comment_count` equal to the length of its comments list. -/
theorem C8_comment_count (md5hex : String → String) (sim : Sim)
    (targetUrl : String) (scrollMin scrollMax : Nat) (p : Post)
    (hp : p ∈ scrapeGroup md5hex sim targetUrl scrollMin scrollMax)
    (_hsrc : p.sourceType = "container_post") :
    p.commentCount = p.comments.length :=
  (scrapeGroup_goodPost md5hex sim targetUrl scrollMin scrollMax p hp).1

/-! ## C10: container extraction text-length threshold -/

/-- C10.  Container extraction skips every candidate whose trimmed inner
text is empty or shorter than 20 characters, so every returned
`container_post` record has a non-empty raw text of at least 20
characters. -/
theorem C10_min_text_length (md5hex : String → String) (sim : Sim)
    (targetUrl : String) (scrollMin scrollMax : Nat) (p : Post)
    (hp : p ∈ scrapeGroup md5hex sim targetUrl scrollMin scrollMax)
    (hsrc : p.sourceType = "container_post") :
    p.rawText ≠ "" ∧ 20 ≤ p.rawText.length :=
  (scrapeGroup_goodPost md5hex sim targetUrl scrollMin scrollMax p hp).2 hsrc

/-! ## C3: the run never raises and never returns an empty list -/

/-- C3.  For every target URL and every rendering-surface behaviour
(including an exception injected anywhere in the harvest loop body, which
the embedding makes total exactly because the source catches it at the top
level), `scrape_group` returns a non-empty list; and when the run errors
with nothing collected, the returned list is exactly one
`emergency_fallback` record whose raw text embeds the error reason. -/
theorem C3_error_resilience (md5hex : String → String) (sim : Sim)
    (targetUrl : String) (scrollMin scrollMax : Nat) :
    scrapeGroup md5hex sim targetUrl scrollMin scrollMax ≠ [] ∧
    (∀ e, (scrapeGroupRun md5hex sim targetUrl scrollMin scrollMax).caught =
        some e →
      (scrapeGroupRun md5hex sim targetUrl scrollMin scrollMax).collectedAtCatch
        = [] →
      ∃ p, scrapeGroup md5hex sim targetUrl scrollMin scrollMax = [p] ∧
        p.sourceType = "emergency_fallback" ∧ pyIn e p.rawText = true) := by
  constructor
  · rw [scrapeGroup, scrapeGroupRun_posts]
    split_ifs with h
    · simp
    · intro hnil
      exact h (by simp [hnil])
  · intro e hcaught hcatch
    obtain ⟨_, hc2, hc3⟩ :=
      scrapeGroupRun_fields md5hex sim targetUrl scrollMin scrollMax
    have hcore := (scrapeGroupRunCore_spec md5hex sim targetUrl scrollMin
      scrollMax).2.2.2 e (hc2 ▸ hcaught) (hc3 ▸ hcatch)
    refine ⟨buildEmergencyFallback sim.now targetUrl e, ?_, rfl,
      emergency_embeds_reason sim.now targetUrl e⟩
    rw [scrapeGroup, scrapeGroupRun_posts, hcore]
    simp

/-! ## Concrete environments for the witnesses -/

/-- A stand-in md5 hex digest (every theorem holds for all digests). -/
def md5hexW : String → String := fun _ => "0123456789abcdef0123456789abcdef"

/-- A rendered post candidate with one permalink and one comment. -/
def wContainer : Container :=
  { innerText := "  Hello world, this is a long enough post body!  ",
    hrefs := [some "/posts/42"],
    commentCands := ["Great post, thanks for sharing!"] }

/-- A failure-free feed that shows one post on the first harvest and then
stops changing. -/
def wSim : Sim :=
  { gotoFail := none,
    page := fun t => if t = 0 then ⟨[[wContainer]]⟩ else ⟨[]⟩,
    harvestFail := fun _ => none,
    interactFail := fun _ => none,
    anchors := [],
    permalinkFail := none,
    pageTitle := none,
    pageBody := none,
    now := "2024-01-01T00:00:00+00:00" }

/-- The record the run over `wSim` produces. -/
def wPost : Post :=
  { url := "https://fb.com/posts/42",
    rawText := "Hello world, this is a long enough post body!",
    comments := ["Great post, thanks for sharing!"],
    commentCount := 1, sourceType := "container_post",
    scrapedAt := some "2024-01-01T00:00:00+00:00" }

/-- A run whose navigation raises immediately. -/
def wFailSim : Sim :=
  { gotoFail := some "net::ERR_TIMED_OUT",
    page := fun _ => ⟨[]⟩,
    harvestFail := fun _ => none,
    interactFail := fun _ => none,
    anchors := [],
    permalinkFail := none,
    pageTitle := none,
    pageBody := none,
    now := "2024-01-01T00:00:00+00:00" }

/-- Witness for C8 on the concrete run over `wSim`. -/
theorem C8_comment_count_witness :
    wPost.commentCount = wPost.comments.length :=
  C8_comment_count md5hexW wSim "https://fb.com/groups/g" 1 0 wPost
    (by decide) (by decide)

/-- Witness for C10 on the concrete run over `wSim`. -/
theorem C10_min_text_length_witness :
    wPost.rawText ≠ "" ∧ 20 ≤ wPost.rawText.length :=
  C10_min_text_length md5hexW wSim "https://fb.com/groups/g" 1 0 wPost
    (by decide) (by decide)

/-- Witness for C3: a run that fails during navigation still returns a
non-empty list, namely one emergency record embedding the reason. -/
theorem C3_error_resilience_witness :
    scrapeGroup md5hexW wFailSim "https://fb.com/groups/g" 1 0 ≠ [] ∧
    ∃ p, scrapeGroup md5hexW wFailSim "https://fb.com/groups/g" 1 0 = [p] ∧
      p.sourceType = "emergency_fallback" ∧
      pyIn "net::ERR_TIMED_OUT" p.rawText = true :=
  ⟨(C3_error_resilience md5hexW wFailSim "https://fb.com/groups/g" 1 0).1,
   (C3_error_resilience md5hexW wFailSim "https://fb.com/groups/g" 1 0).2
     "net::ERR_TIMED_OUT" (by decide) (by decide)⟩

/-! ## C5: the finalizing phase of the cascade -/

lemma doHarvest_noFail (md5hex : String → String) (sim : Sim)
    (targetUrl : String) (st : RunSt) (h : sim.harvestFail st.t = none) :
    (doHarvest md5hex sim targetUrl st).2 = none := by
  rw [doHarvest, h]

/-- With no injected failures the cycle loop raises nothing. -/
lemma cycleLoop_noFail (md5hex : String → String) (sim : Sim)
    (targetUrl : String) (minCycles : Nat)
    (h2 : ∀ t, sim.harvestFail t = none)
    (h3 : ∀ c, sim.interactFail c = none) :
    ∀ (fuel cycle noGrowth : Nat) (st : RunSt),
      (cycleLoop md5hex sim targetUrl minCycles fuel cycle noGrowth st).2.2 =
        none := by
  intro fuel
  induction fuel with
  | zero => intro cycle noGrowth st; rfl
  | succ fuel ih =>
    intro cycle noGrowth st
    rw [cycleLoop]
    dsimp only
    rw [doHarvest_noFail md5hex sim targetUrl st (h2 _)]
    dsimp only
    rw [h3 cycle]
    dsimp only
    rw [doHarvest_noFail md5hex sim targetUrl _ (h2 _)]
    dsimp only
    split_ifs
    all_goals first
      | rfl
      | exact ih _ _ _

/-- A harvest over a feed that yields nothing leaves records and ledger
unchanged. -/
lemma doHarvest_empty (md5hex : String → String) (sim : Sim)
    (targetUrl : String) (st : RunSt)
    (hempty : ∀ t seen,
      harvestVisiblePosts md5hex sim.now targetUrl (sim.page t) seen =
        ([], seen))
    (h2 : ∀ t, sim.harvestFail t = none) :
    (doHarvest md5hex sim targetUrl st).1.collected = st.collected ∧
    (doHarvest md5hex sim targetUrl st).1.seen = st.seen := by
  rw [doHarvest, h2 st.t]
  dsimp only
  rw [hempty st.t st.seen]
  simp

/-- Over a yield-nothing feed with no failures, the cycle loop leaves the
run state's records and ledger unchanged. -/
lemma cycleLoop_empty (md5hex : String → String) (sim : Sim)
    (targetUrl : String) (minCycles : Nat)
    (hempty : ∀ t seen,
      harvestVisiblePosts md5hex sim.now targetUrl (sim.page t) seen =
        ([], seen))
    (h2 : ∀ t, sim.harvestFail t = none)
    (h3 : ∀ c, sim.interactFail c = none) :
    ∀ (fuel cycle noGrowth : Nat) (st : RunSt),
      (cycleLoop md5hex sim targetUrl minCycles fuel cycle noGrowth st).1.collected
        = st.collected ∧
      (cycleLoop md5hex sim targetUrl minCycles fuel cycle noGrowth st).1.seen
        = st.seen := by
  intro fuel
  induction fuel with
  | zero => intro cycle noGrowth st; exact ⟨rfl, rfl⟩
  | succ fuel ih =>
    intro cycle noGrowth st
    rw [cycleLoop]
    dsimp only
    rw [doHarvest_noFail md5hex sim targetUrl st (h2 _)]
    dsimp only
    rw [h3 cycle]
    dsimp only
    rw [doHarvest_noFail md5hex sim targetUrl _ (h2 _)]
    dsimp only
    obtain ⟨hc1, hs1⟩ := doHarvest_empty md5hex sim targetUrl st hempty h2
    obtain ⟨hc2, hs2⟩ :=
      doHarvest_empty md5hex sim targetUrl (doHarvest md5hex sim targetUrl st).1
        hempty h2
    split_ifs
    all_goals first
      | exact ⟨hc2.trans hc1, hs2.trans hs1⟩
      | exact ⟨(ih _ _ _).1.trans (hc2.trans hc1),
          (ih _ _ _).2.trans (hs2.trans hs1)⟩

/-- C5 on the core run: in the finalizing phase of a failure-free run,
permalink-only extraction runs iff at most one record was collected, the
page-level fallback runs iff the total is still zero afterwards, and a run
in which both the container and the permalink strategies yield nothing
returns exactly the single `page_fallback` record for the target URL. -/
lemma scrapeGroupRunCore_finalizing (md5hex : String → String) (sim : Sim)
    (targetUrl : String) (scrollMin scrollMax : Nat)
    (h1 : sim.gotoFail = none) (h2 : ∀ t, sim.harvestFail t = none)
    (h3 : ∀ c, sim.interactFail c = none) (h4 : sim.permalinkFail = none) :
    ((scrapeGroupRunCore md5hex sim targetUrl scrollMin scrollMax).permalinkInvoked
        = true ↔
      (scrapeGroupRunCore md5hex sim targetUrl scrollMin scrollMax).countFinal
        ≤ 1) ∧
    ((scrapeGroupRunCore md5hex sim targetUrl scrollMin scrollMax).pageInvoked
        = true ↔
      (scrapeGroupRunCore md5hex sim targetUrl
        scrollMin scrollMax).countAfterPermalink = 0) ∧
    ((∀ t seen, harvestVisiblePosts md5hex sim.now targetUrl (sim.page t) seen
        = ([], seen)) →
     (∀ seen, collectFromPermalinkLinks sim.now targetUrl sim.anchors seen
        = ([], seen)) →
      (scrapeGroupRunCore md5hex sim targetUrl scrollMin scrollMax).posts =
        [collectPageLevelFallback sim.now targetUrl sim.pageTitle
          sim.pageBody]) := by
  rw [scrapeGroupRunCore]
  dsimp only
  rw [h1]
  dsimp only
  rw [cycleLoop_noFail md5hex sim targetUrl _ h2 h3]
  dsimp only
  rw [doHarvest_noFail md5hex sim targetUrl _ (h2 _)]
  dsimp only
  by_cases hle : (doHarvest md5hex sim targetUrl
      (cycleLoop md5hex sim targetUrl (max 1 scrollMin)
        (max (max 1 scrollMin) (scrollMax + 6)) 0 0
          ⟨[], [], 0⟩).1).1.collected.length ≤ 1
  · rw [if_pos hle, h4]
    dsimp only
    by_cases hce : ((doHarvest md5hex sim targetUrl
        (cycleLoop md5hex sim targetUrl (max 1 scrollMin)
          (max (max 1 scrollMin) (scrollMax + 6)) 0 0
            ⟨[], [], 0⟩).1).1.collected ++
        (collectFromPermalinkLinks sim.now targetUrl sim.anchors
          (doHarvest md5hex sim targetUrl
            (cycleLoop md5hex sim targetUrl (max 1 scrollMin)
              (max (max 1 scrollMin) (scrollMax + 6)) 0 0
                ⟨[], [], 0⟩).1).1.seen).1).isEmpty
    · rw [if_pos hce]
      refine ⟨⟨fun _ => hle, fun _ => rfl⟩, ?_, ?_⟩
      · simp only [true_iff]
        simpa using hce
      · intro _ _
        rfl
    · rw [if_neg hce]
      refine ⟨⟨fun _ => hle, fun _ => rfl⟩, ?_, ?_⟩
      · simp only [Bool.false_eq_true, false_iff]
        intro hzero
        rw [List.length_eq_zero] at hzero
        rw [hzero] at hce
        simp at hce
      · intro hempty hanch
        exfalso
        obtain ⟨hc, hs⟩ := cycleLoop_empty md5hex sim targetUrl _ hempty h2 h3
          (max (max 1 scrollMin) (scrollMax + 6)) 0 0 ⟨[], [], 0⟩
        obtain ⟨hc', hs'⟩ := doHarvest_empty md5hex sim targetUrl _ hempty h2
        rw [hc', hc, hanch] at hce
        simp at hce
  · rw [if_neg hle]
    refine ⟨?_, ?_, ?_⟩
    · simp only [Bool.false_eq_true, false_iff]
      exact hle
    · simp only [Bool.false_eq_true, false_iff]
      intro hzero
      exact hle (by omega)
    · intro hempty hanch
      exfalso
      obtain ⟨hc, hs⟩ := cycleLoop_empty md5hex sim targetUrl _ hempty h2 h3
        (max (max 1 scrollMin) (scrollMax + 6)) 0 0 ⟨[], [], 0⟩
      obtain ⟨hc', hs'⟩ := doHarvest_empty md5hex sim targetUrl _ hempty h2
      rw [hc', hc] at hle
      simp at hle

lemma scrapeGroupRun_more_fields (md5hex : String → String) (sim : Sim)
    (targetUrl : String) (scrollMin scrollMax : Nat) :
    (scrapeGroupRun md5hex sim targetUrl scrollMin scrollMax).permalinkInvoked =
      (scrapeGroupRunCore md5hex sim targetUrl scrollMin scrollMax).permalinkInvoked ∧
    (scrapeGroupRun md5hex sim targetUrl scrollMin scrollMax).pageInvoked =
      (scrapeGroupRunCore md5hex sim targetUrl scrollMin scrollMax).pageInvoked ∧
    (scrapeGroupRun md5hex sim targetUrl scrollMin scrollMax).countFinal =
      (scrapeGroupRunCore md5hex sim targetUrl scrollMin scrollMax).countFinal ∧
    (scrapeGroupRun md5hex sim targetUrl scrollMin scrollMax).countAfterPermalink =
      (scrapeGroupRunCore md5hex sim targetUrl scrollMin scrollMax).countAfterPermalink := by
  rw [scrapeGroupRun]
  split_ifs <;> exact ⟨rfl, rfl, rfl, rfl⟩

/-- C5.  In the finalizing phase of a failure-free `scrape_group` run,
permalink-only extraction is invoked iff at most one record was collected
by the harvest passes, page-level extraction is invoked iff the total is
still zero after the permalink strategy; and a run in which container and
permalink strategies both yield zero records returns exactly one
`page_fallback` record whose identity URL is the original target URL. -/
theorem C5_finalizing_cascade (md5hex : String → String) (sim : Sim)
    (targetUrl : String) (scrollMin scrollMax : Nat)
    (h1 : sim.gotoFail = none) (h2 : ∀ t, sim.harvestFail t = none)
    (h3 : ∀ c, sim.interactFail c = none) (h4 : sim.permalinkFail = none) :
    ((scrapeGroupRun md5hex sim targetUrl scrollMin scrollMax).permalinkInvoked
        = true ↔
      (scrapeGroupRun md5hex sim targetUrl scrollMin scrollMax).countFinal
        ≤ 1) ∧
    ((scrapeGroupRun md5hex sim targetUrl scrollMin scrollMax).pageInvoked
        = true ↔
      (scrapeGroupRun md5hex sim targetUrl
        scrollMin scrollMax).countAfterPermalink = 0) ∧
    ((∀ t seen, harvestVisiblePosts md5hex sim.now targetUrl (sim.page t) seen
        = ([], seen)) →
     (∀ seen, collectFromPermalinkLinks sim.now targetUrl sim.anchors seen
        = ([], seen)) →
      scrapeGroup md5hex sim targetUrl scrollMin scrollMax =
        [collectPageLevelFallback sim.now targetUrl sim.pageTitle
          sim.pageBody] ∧
      (collectPageLevelFallback sim.now targetUrl sim.pageTitle
        sim.pageBody).url = targetUrl ∧
      (collectPageLevelFallback sim.now targetUrl sim.pageTitle
        sim.pageBody).sourceType = "page_fallback") := by
  obtain ⟨f1, f2, f3, f4⟩ :=
    scrapeGroupRun_more_fields md5hex sim targetUrl scrollMin scrollMax
  obtain ⟨g1, g2, g3⟩ := scrapeGroupRunCore_finalizing md5hex sim targetUrl
    scrollMin scrollMax h1 h2 h3 h4
  refine ⟨by rw [f1, f3]; exact g1, by rw [f2, f4]; exact g2, ?_⟩
  intro hempty hanch
  have hposts := g3 hempty hanch
  refine ⟨?_, rfl, rfl⟩
  rw [scrapeGroup, scrapeGroupRun_posts, hposts]
  simp

/-- A failure-free environment whose feed never yields anything. -/
def wEmptySim : Sim :=
  { gotoFail := none,
    page := fun _ => ⟨[]⟩,
    harvestFail := fun _ => none,
    interactFail := fun _ => none,
    anchors := [],
    permalinkFail := none,
    pageTitle := some "A quiet page",
    pageBody := some "Nothing to see here at all.",
    now := "2024-01-01T00:00:00+00:00" }

/-- Witness for C5: over the empty feed, the run returns exactly the
`page_fallback` record for the target URL. -/
theorem C5_finalizing_cascade_witness :
    scrapeGroup md5hexW wEmptySim "https://fb.com/groups/e" 1 0 =
      [collectPageLevelFallback wEmptySim.now "https://fb.com/groups/e"
        wEmptySim.pageTitle wEmptySim.pageBody] ∧
    (collectPageLevelFallback wEmptySim.now "https://fb.com/groups/e"
      wEmptySim.pageTitle wEmptySim.pageBody).url = "https://fb.com/groups/e" ∧
    (collectPageLevelFallback wEmptySim.now "https://fb.com/groups/e"
      wEmptySim.pageTitle wEmptySim.pageBody).sourceType = "page_fallback" :=
  (C5_finalizing_cascade md5hexW wEmptySim "https://fb.com/groups/e" 1 0
    rfl (fun _ => rfl) (fun _ => rfl) rfl).2.2
    (fun _ _ => rfl) (fun _ => rfl)

/-! ## C4: termination of the harvest cycle loop -/

/-- The loop never executes more cycles than its fuel (the absolute cap),
whatever the environment does. -/
lemma cycleLoop_len_le_fuel (md5hex : String → String) (sim : Sim)
    (targetUrl : String) (minCycles : Nat) :
    ∀ (fuel cycle noGrowth : Nat) (st : RunSt),
      (cycleLoop md5hex sim targetUrl minCycles fuel cycle noGrowth
        st).2.1.length ≤ fuel := by
  intro fuel
  induction fuel with
  | zero => intro cycle noGrowth st; rw [cycleLoop]; simp
  | succ fuel ih =>
    intro cycle noGrowth st
    rw [cycleLoop]
    dsimp only
    cases (doHarvest md5hex sim targetUrl st).2 with
    | some e => simp
    | none =>
      dsimp only
      cases sim.interactFail cycle with
      | some e => simp
      | none =>
        dsimp only
        cases (doHarvest md5hex sim targetUrl
            (doHarvest md5hex sim targetUrl st).1).2 with
        | some e => simp
        | none =>
          dsimp only
          split_ifs
          all_goals simp only [List.length_cons, List.length_nil]
          · omega
          · exact Nat.succ_le_succ (ih _ _ _)
          · omega
          · exact Nat.succ_le_succ (ih _ _ _)

/-- With no injected failures the loop either exhausts its fuel or breaks,
and a break can only happen once the minimum cycle count is reached. -/
lemma cycleLoop_min (md5hex : String → String) (sim : Sim)
    (targetUrl : String) (minCycles : Nat)
    (h2 : ∀ t, sim.harvestFail t = none)
    (h3 : ∀ c, sim.interactFail c = none) :
    ∀ (fuel cycle noGrowth : Nat) (st : RunSt),
      (cycleLoop md5hex sim targetUrl minCycles fuel cycle noGrowth
        st).2.1.length = fuel ∨
      minCycles ≤ cycle +
        (cycleLoop md5hex sim targetUrl minCycles fuel cycle noGrowth
          st).2.1.length := by
  intro fuel
  induction fuel with
  | zero => intro cycle noGrowth st; left; rw [cycleLoop]; rfl
  | succ fuel ih =>
    intro cycle noGrowth st
    rw [cycleLoop]
    dsimp only
    rw [doHarvest_noFail md5hex sim targetUrl st (h2 _)]
    dsimp only
    rw [h3 cycle]
    dsimp only
    rw [doHarvest_noFail md5hex sim targetUrl _ (h2 _)]
    dsimp only
    split_ifs with hlt hbr1 hbr2
    · right
      simp only [List.length_cons, List.length_nil]
      omega
    · rcases ih (cycle + 1) 0
        (doHarvest md5hex sim targetUrl (doHarvest md5hex sim targetUrl st).1).1
        with h | h
      · left
        simp only [List.length_cons, h]
      · right
        simp only [List.length_cons]
        omega
    · right
      simp only [List.length_cons, List.length_nil]
      omega
    · rcases ih (cycle + 1) (noGrowth + 1)
        (doHarvest md5hex sim targetUrl (doHarvest md5hex sim targetUrl st).1).1
        with h | h
      · left
        simp only [List.length_cons, h]
      · right
        simp only [List.length_cons]
        omega

/-- The stall bound: if no executed cycle with index at least `k` grows the
ledger, the loop (failure-free) stops within `max minCycles (k + 3)`
cycles counted from the start.  The counter `noGrowth` accounts for
consecutive non-growing cycles already seen before the current cycle. -/
lemma cycleLoop_stall (md5hex : String → String) (sim : Sim)
    (targetUrl : String) (minCycles k : Nat)
    (h2 : ∀ t, sim.harvestFail t = none)
    (h3 : ∀ c, sim.interactFail c = none) :
    ∀ (fuel cycle noGrowth : Nat) (st : RunSt) (st' : RunSt)
      (tr : List (Nat × Nat)) (err : Option String),
      cycleLoop md5hex sim targetUrl minCycles fuel cycle noGrowth st =
        (st', tr, err) →
      (∀ j, j < tr.length → k ≤ cycle + j →
        ¬ (tr.getD j (0, 0)).1 < (tr.getD j (0, 0)).2) →
      cycle + tr.length ≤
        max (max minCycles (k + 3))
          (if k ≤ cycle then cycle + max (3 - noGrowth) 1 else 0) := by
  intro fuel
  induction fuel with
  | zero =>
    intro cycle noGrowth st st' tr err heq hng
    rw [cycleLoop] at heq
    simp only [Prod.mk.injEq] at heq
    obtain ⟨-, htr, -⟩ := heq
    subst htr
    simp only [List.length_nil, Nat.add_zero]
    by_cases hk : k ≤ cycle
    · rw [if_pos hk]
      exact le_max_of_le_right (by omega)
    · rw [if_neg hk]
      exact le_max_of_le_left (by omega)
  | succ fuel ih =>
    intro cycle noGrowth st st' tr err heq hng
    rw [cycleLoop] at heq
    dsimp only at heq
    rw [doHarvest_noFail md5hex sim targetUrl st (h2 _)] at heq
    dsimp only at heq
    rw [h3 cycle] at heq
    dsimp only at heq
    rw [doHarvest_noFail md5hex sim targetUrl _ (h2 _)] at heq
    dsimp only at heq
    split_ifs at heq with hlt hbr1 hbr2
    · -- growth this cycle, immediate break
      simp only [Prod.mk.injEq] at heq
      obtain ⟨-, htr, -⟩ := heq
      subst htr
      by_cases hk : k ≤ cycle
      · exact absurd hlt (by simpa using hng 0 (by simp) (by omega))
      · simp only [List.length_cons, List.length_nil]
        rw [if_neg hk]
        omega
    · -- growth this cycle, continue
      simp only [Prod.mk.injEq] at heq
      obtain ⟨-, htr, -⟩ := heq
      subst htr
      by_cases hk : k ≤ cycle
      · exact absurd hlt (by simpa using hng 0 (by simp) (by omega))
      · have hrec := ih (cycle + 1) 0
          (doHarvest md5hex sim targetUrl (doHarvest md5hex sim targetUrl st).1).1
          (cycleLoop md5hex sim targetUrl minCycles fuel (cycle + 1) 0
            (doHarvest md5hex sim targetUrl
              (doHarvest md5hex sim targetUrl st).1).1).1
          (cycleLoop md5hex sim targetUrl minCycles fuel (cycle + 1) 0
            (doHarvest md5hex sim targetUrl
              (doHarvest md5hex sim targetUrl st).1).1).2.1
          (cycleLoop md5hex sim targetUrl minCycles fuel (cycle + 1) 0
            (doHarvest md5hex sim targetUrl
              (doHarvest md5hex sim targetUrl st).1).1).2.2
          rfl ?hng'
        case hng' =>
          intro j hj hkj
          have := hng (j + 1)
            (by simp only [List.length_cons]; exact Nat.succ_lt_succ hj)
            (by omega)
          simpa using this
        simp only [List.length_cons]
        rw [if_neg hk]
        by_cases hk1 : k ≤ cycle + 1
        · rw [if_pos hk1] at hrec
          omega
        · rw [if_neg hk1] at hrec
          omega
    · -- no growth, break
      simp only [Prod.mk.injEq] at heq
      obtain ⟨-, htr, -⟩ := heq
      subst htr
      simp only [List.length_cons, List.length_nil]
      by_cases hk : k ≤ cycle
      · rw [if_pos hk]
        omega
      · rw [if_neg hk]
        omega
    · -- no growth, continue
      simp only [Prod.mk.injEq] at heq
      obtain ⟨-, htr, -⟩ := heq
      subst htr
      have hrec := ih (cycle + 1) (noGrowth + 1)
        (doHarvest md5hex sim targetUrl (doHarvest md5hex sim targetUrl st).1).1
        (cycleLoop md5hex sim targetUrl minCycles fuel (cycle + 1)
          (noGrowth + 1)
          (doHarvest md5hex sim targetUrl
            (doHarvest md5hex sim targetUrl st).1).1).1
        (cycleLoop md5hex sim targetUrl minCycles fuel (cycle + 1)
          (noGrowth + 1)
          (doHarvest md5hex sim targetUrl
            (doHarvest md5hex sim targetUrl st).1).1).2.1
        (cycleLoop md5hex sim targetUrl minCycles fuel (cycle + 1)
          (noGrowth + 1)
          (doHarvest md5hex sim targetUrl
            (doHarvest md5hex sim targetUrl st).1).1).2.2
        rfl ?hng'
      case hng' =>
        intro j hj hkj
        have := hng (j + 1)
          (by simp only [List.length_cons]; exact Nat.succ_lt_succ hj)
          (by omega)
        simpa using this
      simp only [List.length_cons]
      by_cases hk : k ≤ cycle
      · rw [if_pos hk]
        rw [if_pos (by omega : k ≤ cycle + 1)] at hrec
        omega
      · rw [if_neg hk]
        by_cases hk1 : k ≤ cycle + 1
        · rw [if_pos hk1] at hrec
          omega
        · rw [if_neg hk1] at hrec
          omega

/-- Under `gotoFail = none` the core outcome's cycle trace is the loop's
trace. -/
lemma scrapeGroupRunCore_trace (md5hex : String → String) (sim : Sim)
    (targetUrl : String) (scrollMin scrollMax : Nat)
    (h1 : sim.gotoFail = none) :
    (scrapeGroupRunCore md5hex sim targetUrl scrollMin scrollMax).cycleTrace =
      (cycleLoop md5hex sim targetUrl (max 1 scrollMin)
        (max (max 1 scrollMin) (scrollMax + 6)) 0 0 ⟨[], [], 0⟩).2.1 := by
  rw [scrapeGroupRunCore]
  dsimp only
  rw [h1]
  dsimp only
  cases (cycleLoop md5hex sim targetUrl (max 1 scrollMin)
      (max (max 1 scrollMin) (scrollMax + 6)) 0 0 ⟨[], [], 0⟩).2.2 with
  | some e => rfl
  | none =>
    dsimp only
    cases (doHarvest md5hex sim targetUrl
        (cycleLoop md5hex sim targetUrl (max 1 scrollMin)
          (max (max 1 scrollMin) (scrollMax + 6)) 0 0 ⟨[], [], 0⟩).1).2 with
    | some e => rfl
    | none =>
      dsimp only
      by_cases hle : (doHarvest md5hex sim targetUrl
          (cycleLoop md5hex sim targetUrl (max 1 scrollMin)
            (max (max 1 scrollMin) (scrollMax + 6)) 0 0
              ⟨[], [], 0⟩).1).1.collected.length ≤ 1
      · rw [if_pos hle]
        cases sim.permalinkFail with
        | some e => rfl
        | none =>
          dsimp only
          by_cases hce : ((doHarvest md5hex sim targetUrl
              (cycleLoop md5hex sim targetUrl (max 1 scrollMin)
                (max (max 1 scrollMin) (scrollMax + 6)) 0 0
                  ⟨[], [], 0⟩).1).1.collected ++
              (collectFromPermalinkLinks sim.now targetUrl sim.anchors
                (doHarvest md5hex sim targetUrl
                  (cycleLoop md5hex sim targetUrl (max 1 scrollMin)
                    (max (max 1 scrollMin) (scrollMax + 6)) 0 0
                      ⟨[], [], 0⟩).1).1.seen).1).isEmpty
          · rw [if_pos hce]
          · rw [if_neg hce]
      · rw [if_neg hle]

lemma scrapeGroupRun_trace_eq (md5hex : String → String) (sim : Sim)
    (targetUrl : String) (scrollMin scrollMax : Nat) :
    (scrapeGroupRun md5hex sim targetUrl scrollMin scrollMax).cycleTrace =
      (scrapeGroupRunCore md5hex sim targetUrl scrollMin scrollMax).cycleTrace := by
  rw [scrapeGroupRun]
  split_ifs <;> rfl

/-- C4.  For every failure-free feed simulation whose set of discovered
identities stops growing from cycle `k` on (no executed cycle with index
`≥ k` grows the ledger), the harvest cycle loop runs at least the
configured minimum number of cycles (`max 1 scroll_min`), never exceeds
the absolute cap derived from the scroll bounds
(`max (max 1 scroll_min) (scroll_max + 6)`), and terminates within
`max minCycles (k + 3)` cycles — `k` plus the stall threshold of 3
consecutive non-growing cycles, subject to the configured minimum. -/
theorem C4_loop_termination (md5hex : String → String) (sim : Sim)
    (targetUrl : String) (scrollMin scrollMax k : Nat)
    (h1 : sim.gotoFail = none) (h2 : ∀ t, sim.harvestFail t = none)
    (h3 : ∀ c, sim.interactFail c = none)
    (hng : ∀ j,
      j < (scrapeGroupRun md5hex sim targetUrl scrollMin
        scrollMax).cycleTrace.length →
      k ≤ j →
      ¬ ((scrapeGroupRun md5hex sim targetUrl scrollMin
          scrollMax).cycleTrace.getD j (0, 0)).1 <
        ((scrapeGroupRun md5hex sim targetUrl scrollMin
          scrollMax).cycleTrace.getD j (0, 0)).2) :
    max 1 scrollMin ≤
      (scrapeGroupRun md5hex sim targetUrl scrollMin scrollMax).cycleTrace.length ∧
    (scrapeGroupRun md5hex sim targetUrl scrollMin scrollMax).cycleTrace.length ≤
      max (max 1 scrollMin) (scrollMax + 6) ∧
    (scrapeGroupRun md5hex sim targetUrl scrollMin scrollMax).cycleTrace.length ≤
      max (max 1 scrollMin) (k + 3) := by
  have htr := (scrapeGroupRun_trace_eq md5hex sim targetUrl scrollMin
    scrollMax).trans (scrapeGroupRunCore_trace md5hex sim targetUrl scrollMin
      scrollMax h1)
  rw [htr] at hng ⊢
  refine ⟨?_, ?_, ?_⟩
  · rcases cycleLoop_min md5hex sim targetUrl (max 1 scrollMin) h2 h3
      (max (max 1 scrollMin) (scrollMax + 6)) 0 0 ⟨[], [], 0⟩ with h | h
    · rw [h]
      exact Nat.le_max_left _ _
    · omega
  · exact cycleLoop_len_le_fuel md5hex sim targetUrl (max 1 scrollMin)
      (max (max 1 scrollMin) (scrollMax + 6)) 0 0 ⟨[], [], 0⟩
  · have hstall := cycleLoop_stall md5hex sim targetUrl (max 1 scrollMin) k
      h2 h3 (max (max 1 scrollMin) (scrollMax + 6)) 0 0 ⟨[], [], 0⟩
      (cycleLoop md5hex sim targetUrl (max 1 scrollMin)
        (max (max 1 scrollMin) (scrollMax + 6)) 0 0 ⟨[], [], 0⟩).1
      (cycleLoop md5hex sim targetUrl (max 1 scrollMin)
        (max (max 1 scrollMin) (scrollMax + 6)) 0 0 ⟨[], [], 0⟩).2.1
      (cycleLoop md5hex sim targetUrl (max 1 scrollMin)
        (max (max 1 scrollMin) (scrollMax + 6)) 0 0 ⟨[], [], 0⟩).2.2
      rfl (fun j hj hk => hng j hj (by omega))
    by_cases hk : k ≤ 0
    · rw [if_pos hk] at hstall
      omega
    · rw [if_neg hk] at hstall
      omega

/-- Witness for C4: over the never-growing empty feed (`k = 0`) with
`scroll_min = 1`, `scroll_max = 0`, the loop runs exactly 3 cycles:
at least the minimum 1, at most the cap 6, and within `0 + 3`. -/
theorem C4_loop_termination_witness :
    max 1 1 ≤
      (scrapeGroupRun md5hexW wEmptySim "https://fb.com/groups/e" 1
        0).cycleTrace.length ∧
    (scrapeGroupRun md5hexW wEmptySim "https://fb.com/groups/e" 1
      0).cycleTrace.length ≤ max (max 1 1) (0 + 6) ∧
    (scrapeGroupRun md5hexW wEmptySim "https://fb.com/groups/e" 1
      0).cycleTrace.length ≤ max (max 1 1) (0 + 3) :=
  C4_loop_termination md5hexW wEmptySim "https://fb.com/groups/e" 1 0 0
    rfl (fun _ => rfl) (fun _ => rfl) (by decide)

/-! ## List helper lemmas for the URL round-trip (C2, C9) -/

lemma takeWhile_append_all {p : Char → Bool} (xs ys : List Char)
    (h : ∀ c ∈ xs, p c = true) :
    (xs ++ ys).takeWhile p = xs ++ ys.takeWhile p := by
  induction xs with
  | nil => simp
  | cons c t ih =>
    rw [List.cons_append, List.takeWhile_cons,
      if_pos (h c (List.mem_cons_self _ _)),
      ih (fun d hd => h d (List.mem_cons_of_mem _ hd)), List.cons_append]

lemma dropWhile_append_all {p : Char → Bool} (xs ys : List Char)
    (h : ∀ c ∈ xs, p c = true) :
    (xs ++ ys).dropWhile p = ys.dropWhile p := by
  induction xs with
  | nil => simp
  | cons c t ih =>
    rw [List.cons_append, List.dropWhile_cons,
      if_pos (h c (List.mem_cons_self _ _)),
      ih (fun d hd => h d (List.mem_cons_of_mem _ hd))]

lemma splitOnce_append (sep : Char) (k v : List Char) (hk : sep ∉ k) :
    splitOnce sep (k ++ sep :: v) = some (k, v) := by
  have hall : ∀ c ∈ k, (decide (c ≠ sep)) = true := by
    intro c hc
    simp only [decide_eq_true_eq]
    rintro rfl
    exact hk hc
  have hd : (k ++ sep :: v).dropWhile (· ≠ sep) = sep :: v := by
    rw [dropWhile_append_all _ _ hall, List.dropWhile_cons]
    simp
  have ht : (k ++ sep :: v).takeWhile (· ≠ sep) = k := by
    rw [takeWhile_append_all _ _ hall, List.takeWhile_cons]
    simp
  rw [splitOnce, hd]
  dsimp only
  rw [ht]

lemma pctDecode_cons_ne (c : Char) (l : List Char) (hc : c ≠ '%') :
    pctDecode (c :: l) = c :: pctDecode l := by
  match l with
  | [] => rfl
  | [a] => rfl
  | a :: b :: t => rw [pctDecode, if_neg hc]

lemma pctDecode_no_pct (l : List Char) (h : '%' ∉ l) : pctDecode l = l := by
  induction l with
  | nil => rfl
  | cons c t ih =>
    rw [pctDecode_cons_ne c t (by rintro rfl; exact h (List.mem_cons_self _ _)),
      ih (fun hc => h (List.mem_cons_of_mem _ hc))]

lemma unquotePlus_id (l : List Char) (h : ∀ c ∈ l, c ≠ '%' ∧ c ≠ '+') :
    unquotePlus l = l := by
  induction l with
  | nil => rfl
  | cons c t ih =>
    rw [unquotePlus, List.map_cons, if_neg ((h c (List.mem_cons_self _ _)).2),
      pctDecode_cons_ne c _ ((h c (List.mem_cons_self _ _)).1)]
    exact congrArg (List.cons c)
      (ih (fun d hd => h d (List.mem_cons_of_mem _ hd)))

lemma pctDecode_ne_nil (l : List Char) (h : l ≠ []) : pctDecode l ≠ [] := by
  match l with
  | [c] => simp [pctDecode]
  | [c, a] => simp [pctDecode]
  | c :: a :: b :: t =>
    rw [pctDecode]
    split_ifs
    · cases hxa : hexVal a <;> cases hxb : hexVal b <;> simp
    · simp

lemma unquotePlus_ne_nil (l : List Char) (h : l ≠ []) : unquotePlus l ≠ [] := by
  rw [unquotePlus]
  exact pctDecode_ne_nil _ (by simpa using h)

lemma rstripChar_isPre (c : Char) (l : List Char) : rstripChar c l <+: l := by
  rw [rstripChar]
  have h : l.reverse.dropWhile (· = c) <:+ l.reverse := List.dropWhile_suffix _
  have h2 := List.reverse_prefix.mpr h
  simpa using h2

lemma dropWhile_idem (p : Char → Bool) (l : List Char) :
    (l.dropWhile p).dropWhile p = l.dropWhile p := by
  induction l with
  | nil => rfl
  | cons c t ih =>
    rw [List.dropWhile_cons]
    split_ifs with hc
    · exact ih
    · rw [List.dropWhile_cons, if_neg hc]

lemma rstripChar_idem (c : Char) (l : List Char) :
    rstripChar c (rstripChar c l) = rstripChar c l := by
  rw [rstripChar, rstripChar, List.reverse_reverse, dropWhile_idem]

lemma mem_rstripChar {x c : Char} {l : List Char} (h : x ∈ rstripChar c l) :
    x ∈ l := (rstripChar_isPre c l).subset h

lemma rstripChar_head (c c0 : Char) (t : List Char) :
    rstripChar c (c0 :: t) = [] ∨ ∃ t', rstripChar c (c0 :: t) = c0 :: t' := by
  have h := rstripChar_isPre c (c0 :: t)
  cases hr : rstripChar c (c0 :: t) with
  | nil => exact Or.inl rfl
  | cons d t' =>
    right
    rw [hr] at h
    obtain ⟨u, hu⟩ := h
    rw [List.cons_append] at hu
    injection hu with h1 h2
    exact ⟨t', by rw [h1]⟩

lemma find?_eq_head_filter {α : Type} (p : α → Bool) (l : List α) :
    l.find? p = (l.filter p).head? := by
  induction l with
  | nil => rfl
  | cons a t ih =>
    by_cases ha : p a
    · rw [List.find?_cons_of_pos _ ha, List.filter_cons_of_pos ha,
        List.head?_cons]
    · rw [List.find?_cons_of_neg _ (by simpa using ha),
        List.filter_cons_of_neg (by simpa using ha), ih]

lemma perm_eq_of_len_le_one {α : Type} {l l' : List α} (h : l.Perm l')
    (hl : l.length ≤ 1) : l = l' := by
  match l, hl with
  | [], _ => exact h.nil_eq
  | [a], _ => exact (List.perm_singleton.1 h.symm).symm
  | a :: b :: t, hl => simp at hl

lemma normalize_eq (u base : String) (a : List Char) (p : UrlParseRes)
    (h1 : pyUrljoin base.toList u.toList = some a)
    (h2 : pyUrlparse a [] = some p) :
    normalizeFacebookUrl u base = some (String.mk (normCore p)) := by
  have h1' : pyUrljoin base.data u.data = some a := h1
  simp [normalizeFacebookUrl, h1', h2]

lemma keptPairs_congr {q1 q2 : List (List Char × List Char)}
    (h : ∀ k ∈ allowedKeys, firstVal k q1 = firstVal k q2) :
    keptPairs q1 = keptPairs q2 := by
  rw [keptPairs, keptPairs]
  exact List.filterMap_congr fun k hk => by rw [h k hk]

lemma normCore_congr {p q : UrlParseRes} (h1 : p.scheme = q.scheme)
    (h2 : p.netloc = q.netloc) (h3 : p.path = q.path)
    (h4 : keptPairs (parseQsl p.query) = keptPairs (parseQsl q.query)) :
    normCore p = normCore q := by
  rw [normCore, normCore, h1, h2, h3, h4]

lemma filter_key_of_filter_allowed (k : List Char) (hk : k ∈ allowedKeys)
    (l : List (List Char × List Char)) :
    ((l.filter fun pr => pr.1 ∈ allowedKeys).filter fun pr => pr.1 = k)
      = l.filter fun pr => pr.1 = k := by
  rw [List.filter_filter]
  apply List.filter_congr
  intro pr _
  by_cases hp : pr.1 = k
  · rw [hp]
    simp [hk]
  · simp [hp]

lemma firstVal_eq_of_perm {q1 q2 : List (List Char × List Char)} (k : List Char)
    (hk : k ∈ allowedKeys)
    (hperm : (q1.filter fun pr => pr.1 ∈ allowedKeys).Perm
      (q2.filter fun pr => pr.1 ∈ allowedKeys))
    (honce : (q1.filter fun pr => pr.1 = k).length ≤ 1) :
    firstVal k q1 = firstVal k q2 := by
  have hk1 : (q1.filter fun pr => pr.1 = k).Perm
      (q2.filter fun pr => pr.1 = k) := by
    have h := hperm.filter fun pr => decide (pr.1 = k)
    rwa [filter_key_of_filter_allowed k hk q1,
      filter_key_of_filter_allowed k hk q2] at h
  have heq := perm_eq_of_len_le_one hk1 honce
  rw [firstVal, firstVal, find?_eq_head_filter, find?_eq_head_filter, heq]

lemma intercalate_single (x : Char) (a : List Char) :
    List.intercalate [x] [a] = a := by
  simp [List.intercalate]

lemma intercalate_cons2 (x : Char) (a b : List Char) (l : List (List Char)) :
    List.intercalate [x] (a :: b :: l)
      = a ++ x :: List.intercalate [x] (b :: l) := by
  simp [List.intercalate]

lemma intercalate_head_ne_nil (x : Char) (a : List Char) (l : List (List Char))
    (ha : a ≠ []) : List.intercalate [x] (a :: l) ≠ [] := by
  cases l with
  | nil => rw [intercalate_single]; exact ha
  | cons b t => rw [intercalate_cons2]; simp [ha]

lemma mem_intercalate {c x : Char} {parts : List (List Char)}
    (h : c ∈ List.intercalate [x] parts) :
    c = x ∨ ∃ part ∈ parts, c ∈ part := by
  induction parts with
  | nil => simp [List.intercalate] at h
  | cons a l ih =>
    cases l with
    | nil =>
      rw [intercalate_single] at h
      exact Or.inr ⟨a, List.mem_cons_self _ _, h⟩
    | cons b t =>
      rw [intercalate_cons2] at h
      rcases List.mem_append.1 h with h1 | h2
      · exact Or.inr ⟨a, List.mem_cons_self _ _, h1⟩
      · rcases List.mem_cons.1 h2 with rfl | h3
        · exact Or.inl rfl
        · rcases ih h3 with h4 | ⟨part, hp, hc⟩
          · exact Or.inl h4
          · exact Or.inr ⟨part, List.mem_cons_of_mem _ hp, hc⟩

lemma qslPair_pair (k v : List Char) (hk1 : '=' ∉ k)
    (hk2 : ∀ c ∈ k, c ≠ '%' ∧ c ≠ '+') (hv1 : v ≠ [])
    (hv2 : ∀ c ∈ v, c ≠ '%' ∧ c ≠ '+') :
    qslPair (k ++ '=' :: v) = some (k, v) := by
  rw [qslPair, if_neg (by simp), splitOnce_append '=' k v hk1]
  dsimp only
  rw [if_neg hv1, unquotePlus_id k hk2, unquotePlus_id v hv2]

lemma qslPair_val_ne_nil {nv : List Char} {pr : List Char × List Char}
    (h : qslPair nv = some pr) : pr.2 ≠ [] := by
  rw [qslPair] at h
  by_cases h1 : nv = []
  · rw [if_pos h1] at h
    exact absurd h (by simp)
  · rw [if_neg h1] at h
    cases hs : splitOnce '=' nv with
    | none => rw [hs] at h; exact absurd h (by simp)
    | some kv =>
      obtain ⟨n, v⟩ := kv
      rw [hs] at h
      dsimp only at h
      by_cases h2 : v = []
      · rw [if_pos h2] at h
        exact absurd h (by simp)
      · rw [if_neg h2] at h
        obtain rfl : (unquotePlus n, unquotePlus v) = pr :=
          Option.some_inj.1 h
        exact unquotePlus_ne_nil v h2

lemma parseQsl_val_ne_nil (qs : List Char) :
    ∀ pr ∈ parseQsl qs, pr.2 ≠ [] := by
  intro pr hpr
  rw [parseQsl] at hpr
  split_ifs at hpr with h
  · simp at hpr
  · obtain ⟨nv, _, hf⟩ := List.mem_filterMap.1 hpr
    exact qslPair_val_ne_nil hf

lemma parseQsl_intercalate (ps : List (List Char × List Char)) (hps : ps ≠ [])
    (hk : ∀ pr ∈ ps, '=' ∉ pr.1 ∧ '&' ∉ pr.1 ∧ ∀ c ∈ pr.1, c ≠ '%' ∧ c ≠ '+')
    (hv : ∀ pr ∈ ps, pr.2 ≠ [] ∧ '&' ∉ pr.2 ∧ ∀ c ∈ pr.2, c ≠ '%' ∧ c ≠ '+') :
    parseQsl (List.intercalate ['&'] (ps.map fun pr => pr.1 ++ '=' :: pr.2))
      = ps := by
  have hnoamp : ∀ l ∈ ps.map (fun pr => pr.1 ++ '=' :: pr.2), '&' ∉ l := by
    intro l hl
    obtain ⟨pr, hpr, rfl⟩ := List.mem_map.1 hl
    intro hc
    rcases List.mem_append.1 hc with h1 | h2
    · exact (hk pr hpr).2.1 h1
    · rcases List.mem_cons.1 h2 with h3 | h4
      · exact absurd h3 (by decide)
      · exact (hv pr hpr).2.1 h4
  have hmapne : ps.map (fun pr => pr.1 ++ '=' :: pr.2) ≠ [] := by
    simpa using hps
  have hsplit := List.splitOn_intercalate _ '&' hnoamp hmapne
  have hqne : List.intercalate ['&']
      (ps.map fun pr => pr.1 ++ '=' :: pr.2) ≠ [] := by
    cases ps with
    | nil => exact absurd rfl hps
    | cons p t =>
      rw [List.map_cons]
      exact intercalate_head_ne_nil '&' _ _ (by simp)
  rw [parseQsl, if_neg hqne, hsplit, List.filterMap_map]
  have hpt : ∀ pr ∈ ps,
      (qslPair ∘ fun pr => pr.1 ++ '=' :: pr.2) pr = some pr := by
    intro pr hpr
    exact qslPair_pair pr.1 pr.2 (hk pr hpr).1 (hk pr hpr).2.2
      (hv pr hpr).1 (hv pr hpr).2.2
  rw [show ps.filterMap (qslPair ∘ fun pr => pr.1 ++ '=' :: pr.2)
      = ps.filterMap (fun pr => some pr) from List.filterMap_congr hpt,
    List.filterMap_some]

lemma reverse_dropWhile_isPre (p : Char → Bool) (l : List Char) :
    (l.reverse.dropWhile p).reverse <+: l := by
  have h : l.reverse.dropWhile p <:+ l.reverse := List.dropWhile_suffix _
  simpa using List.reverse_prefix.mpr h

lemma reverse_dropWhile_head {l f : List Char} {c0 : Char} {p : Char → Bool}
    (hl : l = c0 :: f) (hne : (l.reverse.dropWhile p).reverse ≠ []) :
    ∃ f', (l.reverse.dropWhile p).reverse = c0 :: f' := by
  have hp := reverse_dropWhile_isPre p l
  cases hr : (l.reverse.dropWhile p).reverse with
  | nil => exact absurd hr hne
  | cons d f' =>
    rw [hr] at hp
    obtain ⟨u, hu⟩ := hp
    rw [List.cons_append, hl] at hu
    injection hu with h1 h2
    exact ⟨f', by rw [h1]⟩

lemma dropWhile_head_not (p : Char → Bool) (l : List Char) {c : Char}
    {t : List Char} (h : l.dropWhile p = c :: t) : p c = false := by
  induction l with
  | nil => simp at h
  | cons a l2 ih =>
    rw [List.dropWhile_cons] at h
    split_ifs at h with ha
    · exact ih h
    · injection h with h1 _
      subst h1
      exact eq_false_of_ne_true ha

lemma takeWhile_all_eq {p : Char → Bool} {l : List Char}
    (h : ∀ c ∈ l, p c = true) : l.takeWhile p = l := by
  have := takeWhile_append_all l [] h
  simpa using this

lemma dropWhile_all_eq {p : Char → Bool} {l : List Char}
    (h : ∀ c ∈ l, p c = true) : l.dropWhile p = [] := by
  have := dropWhile_append_all l [] h
  simpa using this

lemma splitScheme_exact (S r ds : List Char) (hS : ':' ∉ S)
    (c0 : Char) (cs : List Char) (hcons : S = c0 :: cs)
    (hvalid : c0.isAlpha ∧ (c0 :: cs).all isSchemeChar)
    (hlower : (c0 :: cs).map Char.toLower = S) :
    splitScheme (S ++ ':' :: r) ds = (S, r) := by
  have hall : ∀ c ∈ S, (decide (c ≠ ':')) = true := by
    intro c hc
    simp only [decide_eq_true_eq]
    rintro rfl
    exact hS hc
  have hd : (S ++ ':' :: r).dropWhile (· ≠ ':') = ':' :: r := by
    rw [dropWhile_append_all _ _ hall, List.dropWhile_cons]
    simp
  have ht : (S ++ ':' :: r).takeWhile (· ≠ ':') = S := by
    rw [takeWhile_append_all _ _ hall, List.takeWhile_cons]
    simp
  rw [splitScheme, hd]
  dsimp only
  rw [ht, hcons]
  dsimp only
  rw [if_pos hvalid, hlower, hcons]

lemma splitScheme_http (r ds : List Char) :
    splitScheme ("http".toList ++ ':' :: r) ds = ("http".toList, r) :=
  splitScheme_exact _ r ds (by decide) 'h' ['t', 't', 'p'] (by decide)
    (by decide) (by decide)

lemma splitScheme_https (r ds : List Char) :
    splitScheme ("https".toList ++ ':' :: r) ds = ("https".toList, r) :=
  splitScheme_exact _ r ds (by decide) 'h' ['t', 't', 'p', 's'] (by decide)
    (by decide) (by decide)

lemma netlocSplit_netloc (r1 : List Char) :
    ∀ c ∈ (netlocSplit r1).1, ¬ (isNetlocEnd c = true) := by
  rw [netlocSplit]
  split_ifs with h
  · intro c hc
    have := List.mem_takeWhile_imp hc
    simpa using this
  · intro c hc
    simp at hc

lemma netlocSplit_rest (r1 : List Char) (hne : (netlocSplit r1).1 ≠ []) :
    (netlocSplit r1).2 = []
      ∨ ∃ c t, (netlocSplit r1).2 = c :: t ∧ isNetlocEnd c = true := by
  rw [netlocSplit] at hne ⊢
  by_cases h : r1.take 2 = ['/', '/']
  · rw [if_pos h]
    dsimp only
    cases hd : (r1.drop 2).dropWhile (fun c => ¬ isNetlocEnd c) with
    | nil => exact Or.inl rfl
    | cons c t =>
      refine Or.inr ⟨c, t, rfl, ?_⟩
      have := dropWhile_head_not _ _ hd
      simpa using this
  · rw [if_neg h] at hne
    exact absurd rfl hne

lemma pyUrlsplit_eq {url ds : List Char} {r : UrlSplitRes}
    (h : pyUrlsplit url ds = some r) :
    ¬ (('[' ∈ r.netloc ∧ ']' ∉ r.netloc) ∨ (']' ∈ r.netloc ∧ '[' ∉ r.netloc))
    ∧ r = ⟨(splitScheme url ds).1, (netlocSplit (splitScheme url ds).2).1,
        ((netlocSplit (splitScheme url ds).2).2.takeWhile
          (· ≠ '#')).takeWhile (· ≠ '?'),
        (((netlocSplit (splitScheme url ds).2).2.takeWhile
          (· ≠ '#')).dropWhile (· ≠ '?')).tail,
        ((netlocSplit (splitScheme url ds).2).2.dropWhile (· ≠ '#')).tail⟩ := by
  rw [pyUrlsplit] at h
  by_cases hc : ('[' ∈ (netlocSplit (splitScheme url ds).2).1
      ∧ ']' ∉ (netlocSplit (splitScheme url ds).2).1)
    ∨ (']' ∈ (netlocSplit (splitScheme url ds).2).1
      ∧ '[' ∉ (netlocSplit (splitScheme url ds).2).1)
  · rw [if_pos hc] at h
    exact absurd h (by simp)
  · rw [if_neg hc] at h
    obtain rfl := (Option.some_inj.1 h).symm
    exact ⟨hc, rfl⟩

lemma pyUrlsplit_concrete (S N path2 cq ds : List Char)
    (hsplitS : ∀ r, splitScheme (S ++ ':' :: r) ds = (S, r))
    (hnet : ∀ c ∈ N, ¬ (isNetlocEnd c = true))
    (hbr : ¬ (('[' ∈ N ∧ ']' ∉ N) ∨ (']' ∈ N ∧ '[' ∉ N)))
    (hpath2 : path2 = [] ∨ ∃ t, path2 = '/' :: t)
    (hpq : '?' ∉ path2) (hph : '#' ∉ path2) (hcqh : '#' ∉ cq) :
    pyUrlsplit (S ++ ':' :: '/' :: '/'
        :: (N ++ (path2 ++ (if cq = [] then [] else '?' :: cq)))) ds
      = some ⟨S, N, path2, cq, []⟩ := by
  have hnet' : ∀ c ∈ N, (decide ¬(isNetlocEnd c = true)) = true := by
    intro c hc
    simpa using hnet c hc
  have hR2 : (path2 ++ (if cq = [] then [] else '?' :: cq)) = []
      ∨ ∃ c t, (path2 ++ (if cq = [] then [] else '?' :: cq)) = c :: t
        ∧ isNetlocEnd c = true := by
    by_cases hcq : cq = []
    · rcases hpath2 with rfl | ⟨t, rfl⟩
      · left
        simp [hcq]
      · right
        exact ⟨'/', t, by simp [hcq], by decide⟩
    · rcases hpath2 with rfl | ⟨t, rfl⟩
      · right
        exact ⟨'?', cq, by simp [hcq], by decide⟩
      · right
        exact ⟨'/', t ++ '?' :: cq, by simp [hcq], by decide⟩
  have htW : (N ++ (path2 ++ (if cq = [] then [] else '?' :: cq))).takeWhile
      (fun c => ¬ isNetlocEnd c) = N := by
    rw [takeWhile_append_all _ _ hnet']
    rcases hR2 with h0 | ⟨c, t, h0, hcend⟩
    · rw [h0]
      simp
    · rw [h0, List.takeWhile_cons, if_neg (by simp [hcend])]
      simp
  have hdW : (N ++ (path2 ++ (if cq = [] then [] else '?' :: cq))).dropWhile
      (fun c => ¬ isNetlocEnd c)
      = path2 ++ (if cq = [] then [] else '?' :: cq) := by
    rw [dropWhile_append_all _ _ hnet']
    rcases hR2 with h0 | ⟨c, t, h0, hcend⟩
    · rw [h0]
      rfl
    · rw [h0, List.dropWhile_cons, if_neg (by simp [hcend])]
  have hns : netlocSplit ('/' :: '/'
      :: (N ++ (path2 ++ (if cq = [] then [] else '?' :: cq))))
      = (N, path2 ++ (if cq = [] then [] else '?' :: cq)) := by
    have ht2 : List.take 2 ('/' :: '/'
        :: (N ++ (path2 ++ (if cq = [] then [] else '?' :: cq))))
        = ['/', '/'] := rfl
    rw [netlocSplit, if_pos ht2]
    dsimp only [List.drop_succ_cons, List.drop_zero]
    rw [htW, hdW]
  have hph2 : ∀ c ∈ path2 ++ (if cq = [] then [] else '?' :: cq),
      (decide (c ≠ '#')) = true := by
    intro c hc
    simp only [decide_eq_true_eq]
    rcases List.mem_append.1 hc with h1 | h2
    · rintro rfl
      exact hph h1
    · by_cases hcq : cq = []
      · rw [if_pos hcq] at h2
        simp at h2
      · rw [if_neg hcq] at h2
        rcases List.mem_cons.1 h2 with rfl | h3
        · decide
        · rintro rfl
          exact hcqh h3
  have hbf : (path2 ++ (if cq = [] then [] else '?' :: cq)).takeWhile
      (· ≠ '#') = path2 ++ (if cq = [] then [] else '?' :: cq) :=
    takeWhile_all_eq hph2
  have hfr : (path2 ++ (if cq = [] then [] else '?' :: cq)).dropWhile
      (· ≠ '#') = [] :=
    dropWhile_all_eq hph2
  have hpq' : ∀ c ∈ path2, (decide (c ≠ '?')) = true := by
    intro c hc
    simp only [decide_eq_true_eq]
    rintro rfl
    exact hpq hc
  have hpathW : (path2 ++ (if cq = [] then [] else '?' :: cq)).takeWhile
      (· ≠ '?') = path2 := by
    rw [takeWhile_append_all _ _ hpq']
    by_cases hcq : cq = []
    · rw [if_pos hcq]
      simp
    · rw [if_neg hcq, List.takeWhile_cons, if_neg (by simp)]
      simp
  have hqW : ((path2 ++ (if cq = [] then [] else '?' :: cq)).dropWhile
      (· ≠ '?')).tail = cq := by
    rw [dropWhile_append_all _ _ hpq']
    by_cases hcq : cq = []
    · rw [if_pos hcq]
      rw [hcq]
      rfl
    · rw [if_neg hcq, List.dropWhile_cons, if_neg (by simp)]
      rfl
  rw [pyUrlsplit, hsplitS]
  dsimp only
  rw [hns]
  dsimp only
  rw [if_neg hbr, hbf, hpathW, hqW, hfr]
  rfl

lemma pySplitparams_subset (url : List Char) :
    ∀ c ∈ (pySplitparams url).1, c ∈ url := by
  intro c hc
  rw [pySplitparams] at hc
  by_cases h1 : '/' ∈ url
  · rw [if_pos h1] at hc
    by_cases h2 : ';' ∈ ((url.reverse.takeWhile (· ≠ '/')).reverse : List Char)
    · rw [if_pos h2] at hc
      dsimp only at hc
      rcases List.mem_append.1 hc with hf | ht
      · exact (reverse_dropWhile_isPre _ url).subset hf
      · have h4 := (List.takeWhile_sublist _).subset ht
        rw [List.mem_reverse] at h4
        have h5 := (List.takeWhile_sublist _).subset h4
        rw [List.mem_reverse] at h5
        exact h5
    · rw [if_neg h2] at hc
      exact hc
  · rw [if_neg h1] at hc
    by_cases h3 : ';' ∈ url
    · rw [if_pos h3] at hc
      exact (List.takeWhile_sublist _).subset hc
    · rw [if_neg h3] at hc
      exact hc

lemma pySplitparams_pre {t0 : List Char} :
    (pySplitparams ('/' :: t0)).1 = []
      ∨ ∃ t, (pySplitparams ('/' :: t0)).1 = '/' :: t := by
  rw [pySplitparams, if_pos (List.mem_cons_self '/' t0)]
  dsimp only
  split_ifs with h2
  · dsimp only
    right
    have hne : ((('/' :: t0).reverse.dropWhile (· ≠ '/')).reverse
        : List Char) ≠ [] := by
      simp only [ne_eq, List.reverse_eq_nil_iff]
      intro hnil
      have hall := List.dropWhile_eq_nil_iff.1 hnil
      have hmem : '/' ∈ ('/' :: t0).reverse := by
        rw [List.mem_reverse]
        exact List.mem_cons_self _ _
      have := hall _ hmem
      simp at this
    obtain ⟨f', hf'⟩ := reverse_dropWhile_head rfl hne
    rw [hf', List.cons_append]
    exact ⟨_, rfl⟩
  · exact Or.inr ⟨t0, rfl⟩

lemma pyUrlparse_facts {url ds : List Char} {p : UrlParseRes}
    (h : pyUrlparse url ds = some p) :
    (∀ c ∈ p.netloc, ¬ (isNetlocEnd c = true))
    ∧ ¬ (('[' ∈ p.netloc ∧ ']' ∉ p.netloc) ∨ (']' ∈ p.netloc ∧ '[' ∉ p.netloc))
    ∧ '?' ∉ p.path ∧ '#' ∉ p.path
    ∧ (p.netloc ≠ [] → p.path = [] ∨ ∃ t, p.path = '/' :: t) := by
  rw [pyUrlparse] at h
  cases hsp : pyUrlsplit url ds with
  | none => rw [hsp] at h; exact absurd h (by simp)
  | some r =>
    rw [hsp] at h
    obtain ⟨hbr, hrstruct⟩ := pyUrlsplit_eq hsp
    have hnet_r : ∀ c ∈ r.netloc, ¬ (isNetlocEnd c = true) := by
      rw [hrstruct]
      exact netlocSplit_netloc _
    have hq_r : '?' ∉ r.path := by
      rw [hrstruct]
      intro hc
      have := List.mem_takeWhile_imp hc
      simp at this
    have hh_r : '#' ∉ r.path := by
      rw [hrstruct]
      intro hc
      have h4 := (List.takeWhile_sublist _).subset hc
      have := List.mem_takeWhile_imp h4
      simp at this
    have hshape_r : r.netloc ≠ [] → r.path = [] ∨ ∃ t, r.path = '/' :: t := by
      intro hne
      have hne' : (netlocSplit (splitScheme url ds).2).1 ≠ [] := by
        rw [hrstruct] at hne
        exact hne
      rcases netlocSplit_rest _ hne' with hr2 | ⟨c, t, hr2, hcend⟩
      · left
        rw [hrstruct]
        dsimp only
        rw [hr2]
        rfl
      · rw [hrstruct]
        dsimp only
        rw [hr2]
        have hc3 : (c = '/' ∨ c = '?') ∨ c = '#' := by
          revert hcend
          rw [isNetlocEnd]
          intro hcend
          simpa using hcend
        rcases hc3 with (rfl | rfl) | rfl
        · right
          rw [List.takeWhile_cons, if_pos (by simp), List.takeWhile_cons,
            if_pos (by simp)]
          exact ⟨_, rfl⟩
        · left
          rw [List.takeWhile_cons, if_pos (by simp), List.takeWhile_cons,
            if_neg (by simp)]
        · left
          rw [List.takeWhile_cons, if_neg (by simp)]
          rfl
    clear hrstruct
    simp only [Option.bind_eq_bind, Option.some_bind] at h
    by_cases hg : r.scheme ∈ usesParams ∧ ';' ∈ r.path
    · rw [if_pos hg] at h
      obtain rfl := (Option.some_inj.1 h).symm
      dsimp only
      refine ⟨hnet_r, hbr, ?_, ?_, ?_⟩
      · intro hc
        exact hq_r (pySplitparams_subset _ _ hc)
      · intro hc
        exact hh_r (pySplitparams_subset _ _ hc)
      · intro hne
        rcases hshape_r hne with hnil | ⟨t, hpath⟩
        · rw [hnil] at hg
          exact absurd hg.2 (by simp)
        · rw [hpath]
          exact pySplitparams_pre
    · rw [if_neg hg] at h
      obtain rfl := (Option.some_inj.1 h).symm
      exact ⟨hnet_r, hbr, hq_r, hh_r, hshape_r⟩

def presentPairs (qsl : List (List Char × List Char)) :
    List (List Char × List Char) :=
  allowedKeys.filterMap fun k => (firstVal k qsl).map fun v => (k, v)

lemma keptPairs_eq_map (qsl : List (List Char × List Char)) :
    keptPairs qsl = (presentPairs qsl).map fun pr => pr.1 ++ '=' :: pr.2 := by
  rcases hf1 : firstVal ['f','b','i','d'] qsl with _ | v1 <;>
    rcases hf2 : firstVal ['i','d'] qsl with _ | v2 <;>
    rcases hf3 : firstVal ['s','t','o','r','y','_','f','b','i','d'] qsl
      with _ | v3 <;>
    simp [keptPairs, presentPairs, allowedKeys, hf1, hf2, hf3]

lemma mem_presentPairs {qsl pr} (h : pr ∈ presentPairs qsl) :
    pr.1 ∈ allowedKeys ∧ firstVal pr.1 qsl = some pr.2 := by
  obtain ⟨k, hk, hm⟩ := List.mem_filterMap.1 h
  cases hf : firstVal k qsl with
  | none => rw [hf] at hm; simp at hm
  | some v =>
    rw [hf] at hm
    obtain rfl : (k, v) = pr := by simpa using hm
    exact ⟨hk, hf⟩

lemma firstVal_none_of_keys {k : List Char} {l : List (List Char × List Char)}
    (h : ∀ pr ∈ l, pr.1 ≠ k) : firstVal k l = none := by
  rw [firstVal,
    List.find?_eq_none.2 (fun pr hpr => by simpa using h pr hpr)]
  rfl

lemma firstVal_filterMap_present (qsl : List (List Char × List Char)) :
    ∀ (L : List (List Char)), L.Nodup → ∀ k ∈ L,
      firstVal k (L.filterMap fun k' => (firstVal k' qsl).map fun v => (k', v))
        = firstVal k qsl := by
  intro L
  induction L with
  | nil => intro _ k hk; simp at hk
  | cons a t ih =>
    intro hnd k hk
    obtain ⟨hat, hndt⟩ := List.nodup_cons.1 hnd
    rw [List.filterMap_cons]
    cases hfa : firstVal a qsl with
    | none =>
      dsimp only [Option.map_none']
      rcases List.mem_cons.1 hk with rfl | hkt
      · rw [hfa]
        apply firstVal_none_of_keys
        intro pr hpr hpk
        obtain ⟨k', hk', hmk⟩ := List.mem_filterMap.1 hpr
        cases hf' : firstVal k' qsl with
        | none => rw [hf'] at hmk; simp at hmk
        | some v' =>
          rw [hf'] at hmk
          obtain rfl : (k', v') = pr := by simpa using hmk
          exact hat (hpk ▸ hk')
      · exact ih hndt k hkt
    | some v =>
      dsimp only [Option.map_some']
      rcases List.mem_cons.1 hk with rfl | hkt
      · rw [firstVal, List.find?_cons_of_pos _ (by simp)]
        simp [hfa]
      · rw [firstVal,
          List.find?_cons_of_neg _ (by simp; exact fun he => hat (he ▸ hkt))]
        exact ih hndt k hkt

lemma firstVal_presentPairs (qsl : List (List Char × List Char)) :
    ∀ k ∈ allowedKeys, firstVal k (presentPairs qsl) = firstVal k qsl :=
  firstVal_filterMap_present qsl allowedKeys (by decide)

lemma allowedKeys_chars : ∀ k ∈ allowedKeys,
    '=' ∉ k ∧ '&' ∉ k ∧ ∀ c ∈ k, c ≠ '%' ∧ c ≠ '+' := by decide

lemma firstVal_mem {k v : List Char} {qsl : List (List Char × List Char)}
    (h : firstVal k qsl = some v) : ∃ pr ∈ qsl, pr.2 = v := by
  rw [firstVal] at h
  cases hf : qsl.find? (fun p => p.1 = k) with
  | none => rw [hf] at h; simp at h
  | some q =>
    rw [hf] at h
    exact ⟨q, List.mem_of_find?_eq_some hf, by simpa using h⟩

lemma parseQsl_keptPairs (qsl : List (List Char × List Char))
    (hvne : ∀ pr ∈ qsl, pr.2 ≠ [])
    (hval : ∀ k v, k ∈ allowedKeys → firstVal k qsl = some v →
      ∀ c ∈ v, c ≠ '%' ∧ c ≠ '+' ∧ c ≠ '&') :
    parseQsl (List.intercalate ['&'] (keptPairs qsl)) = presentPairs qsl := by
  rw [keptPairs_eq_map]
  by_cases hp : presentPairs qsl = []
  · rw [hp]
    simp [List.intercalate, parseQsl]
  · apply parseQsl_intercalate _ hp
    · intro pr hpr
      exact allowedKeys_chars pr.1 (mem_presentPairs hpr).1
    · intro pr hpr
      obtain ⟨hk, hfv⟩ := mem_presentPairs hpr
      have hv := hval pr.1 pr.2 hk hfv
      obtain ⟨q, hq, hq2⟩ := firstVal_mem hfv
      refine ⟨hq2 ▸ hvne q hq, fun hc => (hv '&' hc).2.2 rfl, fun c hc =>
        ⟨(hv c hc).1, (hv c hc).2.1⟩⟩

lemma keptPairs_roundtrip (qsl : List (List Char × List Char))
    (hvne : ∀ pr ∈ qsl, pr.2 ≠ [])
    (hval : ∀ k v, k ∈ allowedKeys → firstVal k qsl = some v →
      ∀ c ∈ v, c ≠ '%' ∧ c ≠ '+' ∧ c ≠ '&') :
    keptPairs (parseQsl (List.intercalate ['&'] (keptPairs qsl)))
      = keptPairs qsl := by
  rw [parseQsl_keptPairs qsl hvne hval]
  exact keptPairs_congr (firstVal_presentPairs qsl)

lemma mem_keptPairs_intercalate {c : Char} {qsl : List (List Char × List Char)}
    (h : c ∈ List.intercalate ['&'] (keptPairs qsl)) :
    c = '&' ∨ c = '=' ∨ ∃ k v, k ∈ allowedKeys ∧ firstVal k qsl = some v
      ∧ (c ∈ k ∨ c ∈ v) := by
  rcases mem_intercalate h with h1 | ⟨part, hp, hc⟩
  · exact Or.inl h1
  · rw [keptPairs_eq_map] at hp
    obtain ⟨pr, hpr, rfl⟩ := List.mem_map.1 hp
    obtain ⟨hk, hfv⟩ := mem_presentPairs hpr
    rcases List.mem_append.1 hc with h2 | h3
    · exact Or.inr (Or.inr ⟨pr.1, pr.2, hk, hfv, Or.inl h2⟩)
    · rcases List.mem_cons.1 h3 with rfl | h4
      · exact Or.inr (Or.inl rfl)
      · exact Or.inr (Or.inr ⟨pr.1, pr.2, hk, hfv, Or.inr h4⟩)

lemma normCore_shape (p : UrlParseRes) :
    normCore p = p.scheme ++ ':' :: '/' :: '/' :: p.netloc
      ++ rstripChar '/' p.path
      ++ (if List.intercalate ['&'] (keptPairs (parseQsl p.query)) = []
          then ([] : List Char)
          else '?' :: List.intercalate ['&'] (keptPairs (parseQsl p.query))) := by
  rw [normCore]
  by_cases hcq : List.intercalate ['&'] (keptPairs (parseQsl p.query)) = []
  · rw [if_neg (by simpa using hcq), if_pos hcq]
    simp
  · rw [if_pos hcq, if_neg hcq]

lemma pyUrlunparse_eq (S N path2 cq : List Char) (hN : N ≠ []) (hS : S ≠ [])
    (hp : path2 = [] ∨ ∃ t, path2 = '/' :: t) :
    pyUrlunparse ⟨S, N, path2, [], cq, []⟩
      = S ++ ':' :: '/' :: '/' :: N ++ path2
        ++ (if cq = [] then ([] : List Char) else '?' :: cq) := by
  rw [pyUrlunparse]
  dsimp only
  rw [if_neg (by simp)]
  rw [pyUrlunsplit]
  rw [if_pos (Or.inl hN)]
  have hcond : ¬(path2 ≠ [] ∧ path2.take 1 ≠ ['/']) := by
    rcases hp with rfl | ⟨t, rfl⟩
    · simp
    · simp
  rw [if_neg hcond, if_pos hS, if_neg (by simp)]
  by_cases hcq : cq = []
  · rw [if_neg (by simpa using hcq), if_pos hcq]
    simp [List.append_assoc]
  · rw [if_pos hcq, if_neg hcq]
    simp [List.append_assoc]

lemma normCore_reparse (p : UrlParseRes) (ds : List Char)
    (hs : p.scheme = "http".toList ∨ p.scheme = "https".toList)
    (hnet : ∀ c ∈ p.netloc, ¬ (isNetlocEnd c = true))
    (hbr : ¬ (('[' ∈ p.netloc ∧ ']' ∉ p.netloc)
      ∨ (']' ∈ p.netloc ∧ '[' ∉ p.netloc)))
    (hpath : p.path = [] ∨ ∃ t, p.path = '/' :: t)
    (hpq : '?' ∉ p.path) (hph : '#' ∉ p.path) (hsemi : ';' ∉ p.path)
    (hcqh : '#' ∉ List.intercalate ['&'] (keptPairs (parseQsl p.query))) :
    pyUrlparse (normCore p) ds
      = some ⟨p.scheme, p.netloc, rstripChar '/' p.path, [],
          List.intercalate ['&'] (keptPairs (parseQsl p.query)), []⟩ := by
  have hpath' : rstripChar '/' p.path = []
      ∨ ∃ t, rstripChar '/' p.path = '/' :: t := by
    rcases hpath with h0 | ⟨t, h0⟩
    · left
      rw [h0]
      rfl
    · rw [h0]
      exact rstripChar_head '/' '/' t
  have hpq' : '?' ∉ rstripChar '/' p.path := fun hc => hpq (mem_rstripChar hc)
  have hph' : '#' ∉ rstripChar '/' p.path := fun hc => hph (mem_rstripChar hc)
  have hO : normCore p = p.scheme ++ ':' :: '/' :: '/'
      :: (p.netloc ++ (rstripChar '/' p.path
        ++ (if List.intercalate ['&'] (keptPairs (parseQsl p.query)) = []
            then ([] : List Char)
            else '?' :: List.intercalate ['&']
              (keptPairs (parseQsl p.query))))) := by
    rw [normCore_shape]
    simp [List.append_assoc]
  have hsp : pyUrlsplit (normCore p) ds
      = some ⟨p.scheme, p.netloc, rstripChar '/' p.path,
          List.intercalate ['&'] (keptPairs (parseQsl p.query)), []⟩ := by
    rw [hO]
    rcases hs with hs | hs <;> rw [hs]
    · exact pyUrlsplit_concrete _ _ _ _ ds (fun r => splitScheme_http r ds)
        hnet hbr hpath' hpq' hph' hcqh
    · exact pyUrlsplit_concrete _ _ _ _ ds (fun r => splitScheme_https r ds)
        hnet hbr hpath' hpq' hph' hcqh
  rw [pyUrlparse, hsp]
  simp only [Option.bind_eq_bind, Option.some_bind]
  rw [if_neg (fun hg => hsemi (mem_rstripChar hg.2))]
  rfl

lemma pyUrljoin_abs (base2 O : List Char) (p' : UrlParseRes) (hO : O ≠ [])
    (hparse : ∀ ds, pyUrlparse O ds = some p')
    (hunparse : pyUrlunparse ⟨p'.scheme, p'.netloc, p'.path, p'.params,
      p'.query, p'.fragment⟩ = O)
    (hnetl : p'.scheme ∈ usesNetloc) (hnet : p'.netloc ≠ [])
    (hb2 : base2 = [] ∨ ∃ b2, pyUrlparse base2 [] = some b2) :
    pyUrljoin base2 O = some O := by
  by_cases hbase : base2 = []
  · rw [pyUrljoin, if_pos hbase]
    rfl
  · rw [pyUrljoin, if_neg hbase, if_neg hO]
    obtain ⟨b2, hb2'⟩ := hb2.resolve_left hbase
    rw [hb2']
    simp only [Option.bind_eq_bind, Option.some_bind]
    rw [hparse b2.scheme]
    simp only [Option.bind_eq_bind, Option.some_bind]
    by_cases hsch : p'.scheme ≠ b2.scheme ∨ p'.scheme ∉ usesRelative
    · rw [if_pos hsch]
      rfl
    · rw [if_neg hsch, if_pos ⟨hnetl, hnet⟩, hunparse]
      rfl

/-- Counterexample to the literal reading of claim C2: the two raw links
differ only in the ordering of their (multiset-equal) query parameters,
yet `_normalize_facebook_url` keeps only the FIRST value of a repeated
identity key (`parse_qs(...)[key][0]`), so swapping `id=1&id=2` to
`id=2&id=1` changes the identity string. -/
theorem C2_order_counterexample :
    (parseQsl ("id=1&id=2".toList)).Perm (parseQsl ("id=2&id=1".toList))
    ∧ normalizeFacebookUrl "https://x.com/p?id=1&id=2" ""
        = some "https://x.com/p?id=1"
    ∧ normalizeFacebookUrl "https://x.com/p?id=2&id=1" ""
        = some "https://x.com/p?id=2"
    ∧ normalizeFacebookUrl "https://x.com/p?id=1&id=2" ""
        ≠ normalizeFacebookUrl "https://x.com/p?id=2&id=1" "" :=
  ⟨by decide, by decide, by decide, by decide⟩

/-- C2 (amended): for raw links that resolve against the same base to
absolute URLs with the same scheme, netloc and path, whose allow-listed
query parameters are equal as multisets (so they differ only in
non-identity parameters or in parameter ordering), and where no
allow-listed key is repeated, `_normalize_facebook_url` produces an
identical identity string.  (Without the no-repetition hypothesis the
claim is false, see the counterexample.) -/
theorem C2_tracking_invariance (u1 u2 base : String) (a1 a2 : List Char)
    (p1 p2 : UrlParseRes)
    (hj1 : pyUrljoin base.toList u1.toList = some a1)
    (hj2 : pyUrljoin base.toList u2.toList = some a2)
    (hp1 : pyUrlparse a1 [] = some p1)
    (hp2 : pyUrlparse a2 [] = some p2)
    (hs : p1.scheme = p2.scheme) (hn : p1.netloc = p2.netloc)
    (hpath : p1.path = p2.path)
    (hperm : ((parseQsl p1.query).filter fun pr => pr.1 ∈ allowedKeys).Perm
      ((parseQsl p2.query).filter fun pr => pr.1 ∈ allowedKeys))
    (honce : ∀ k ∈ allowedKeys,
      ((parseQsl p1.query).filter fun pr => pr.1 = k).length ≤ 1) :
    normalizeFacebookUrl u1 base = normalizeFacebookUrl u2 base := by
  rw [normalize_eq u1 base a1 p1 hj1 hp1, normalize_eq u2 base a2 p2 hj2 hp2]
  exact congrArg (fun l => some (String.mk l))
    (normCore_congr hs hn hpath (keptPairs_congr fun k hk =>
      firstVal_eq_of_perm k hk hperm (honce k hk)))

/-- Scenario B of the spec, via the amended C2 theorem:
`https://x.com/posts/7?story_fbid=7&ref=feed` and
`https://x.com/posts/7?story_fbid=7` (which differ only in the tracking
parameter `ref=feed`) both normalize to
`https://x.com/posts/7?story_fbid=7`. -/
theorem C2_tracking_invariance_witness :
    normalizeFacebookUrl "https://x.com/posts/7?story_fbid=7&ref=feed" ""
      = normalizeFacebookUrl "https://x.com/posts/7?story_fbid=7" ""
    ∧ normalizeFacebookUrl "https://x.com/posts/7?story_fbid=7" ""
      = some "https://x.com/posts/7?story_fbid=7" :=
  ⟨C2_tracking_invariance
    "https://x.com/posts/7?story_fbid=7&ref=feed"
    "https://x.com/posts/7?story_fbid=7" ""
    "https://x.com/posts/7?story_fbid=7&ref=feed".toList
    "https://x.com/posts/7?story_fbid=7".toList
    ⟨"https".toList, "x.com".toList, "/posts/7".toList, [],
      "story_fbid=7&ref=feed".toList, []⟩
    ⟨"https".toList, "x.com".toList, "/posts/7".toList, [],
      "story_fbid=7".toList, []⟩
    (by decide) (by decide) (by decide) (by decide)
    rfl rfl rfl (by decide) (by decide),
   by decide⟩

/-- Counterexample to the literal reading of claim C9: normalization is
NOT idempotent for every raw link.  `unquote_plus` first maps `'+'` to a
space and then decodes percent-escapes, but the normalizer re-emits the
decoded value verbatim, so `%2B` decodes to `'+'` on the first pass and
to `' '` on the second: the output of `_normalize_facebook_url` is not a
fixed point. -/
theorem C9_idem_counterexample :
    normalizeFacebookUrl "https://x.com/p?id=a%2Bb" ""
      = some "https://x.com/p?id=a+b"
    ∧ normalizeFacebookUrl "https://x.com/p?id=a+b" ""
      = some "https://x.com/p?id=a b"
    ∧ ("https://x.com/p?id=a+b" : String) ≠ "https://x.com/p?id=a b" :=
  ⟨by decide, by decide, by decide⟩

/-- C9 (amended): URL normalization is idempotent on the URLs the scraper
actually meets.  If the raw link resolves and parses to an absolute
`http`/`https` URL with a non-empty host, no `';'` in its path, and whose
allow-listed query values contain no `'%'`, `'+'`, `'&'` or `'#'`, then
re-applying `_normalize_facebook_url` to the produced identity string
(against any base URL that itself parses) returns it unchanged. -/
theorem C9_idempotent_normalization (u base base2 : String) (a : List Char)
    (p : UrlParseRes) (o : String)
    (hj : pyUrljoin base.toList u.toList = some a)
    (hp : pyUrlparse a [] = some p)
    (hs : p.scheme = "http".toList ∨ p.scheme = "https".toList)
    (hnetne : p.netloc ≠ [])
    (hsemi : ';' ∉ p.path)
    (hval : ∀ k ∈ allowedKeys, ∀ c ∈ (firstVal k (parseQsl p.query)).getD [],
      c ≠ '%' ∧ c ≠ '+' ∧ c ≠ '&' ∧ c ≠ '#')
    (hb2 : (pyUrlparse base2.toList []).isSome = true)
    (hno : normalizeFacebookUrl u base = some o) :
    normalizeFacebookUrl o base2 = some o := by
  obtain ⟨hnet, hbr, hpq, hph, hshape⟩ := pyUrlparse_facts hp
  have hpath := hshape hnetne
  have ho : o = String.mk (normCore p) := by
    have h2 := normalize_eq u base a p hj hp
    rw [hno] at h2
    exact Option.some_inj.1 h2
  have hval2 : ∀ k v, k ∈ allowedKeys → firstVal k (parseQsl p.query) = some v
      → ∀ c ∈ v, c ≠ '%' ∧ c ≠ '+' ∧ c ≠ '&' ∧ c ≠ '#' := by
    intro k v hk hf c hc
    exact hval k hk c (by simpa [hf] using hc)
  have hcqh : '#' ∉ List.intercalate ['&'] (keptPairs (parseQsl p.query)) := by
    intro hc
    rcases mem_keptPairs_intercalate hc with h1 | h2 | ⟨k, v, hk, hfv, hkv⟩
    · exact absurd h1 (by decide)
    · exact absurd h2 (by decide)
    · rcases hkv with hk2 | hv2
      · have hkc : ∀ k ∈ allowedKeys, '#' ∉ k := by decide
        exact hkc k hk hk2
      · exact (hval2 k v hk hfv '#' hv2).2.2.2 rfl
  have hreparse : ∀ ds, pyUrlparse (normCore p) ds
      = some ⟨p.scheme, p.netloc, rstripChar '/' p.path, [],
          List.intercalate ['&'] (keptPairs (parseQsl p.query)), []⟩ :=
    fun ds => normCore_reparse p ds hs hnet hbr hpath hpq hph hsemi hcqh
  have hround : keptPairs (parseQsl (List.intercalate ['&']
      (keptPairs (parseQsl p.query)))) = keptPairs (parseQsl p.query) :=
    keptPairs_roundtrip (parseQsl p.query) (parseQsl_val_ne_nil p.query)
      (fun k v hk hf c hc => ⟨(hval2 k v hk hf c hc).1,
        (hval2 k v hk hf c hc).2.1, (hval2 k v hk hf c hc).2.2.1⟩)
  have hps : rstripChar '/' p.path = []
      ∨ ∃ t, rstripChar '/' p.path = '/' :: t := by
    rcases hpath with h0 | ⟨t, h0⟩
    · left
      rw [h0]
      rfl
    · rw [h0]
      exact rstripChar_head '/' '/' t
  have hnormp2 : normCore ⟨p.scheme, p.netloc, rstripChar '/' p.path, [],
      List.intercalate ['&'] (keptPairs (parseQsl p.query)), []⟩
      = normCore p := by
    rw [normCore_shape, normCore_shape]
    dsimp only
    rw [rstripChar_idem, hround]
  have hSne : p.scheme ≠ [] := by
    rcases hs with hs | hs <;> rw [hs] <;> decide
  have hunp : pyUrlunparse ⟨p.scheme, p.netloc, rstripChar '/' p.path, [],
      List.intercalate ['&'] (keptPairs (parseQsl p.query)), []⟩
      = normCore p := by
    rw [pyUrlunparse_eq _ _ _ _ hnetne hSne hps, normCore_shape]
  have hOne : normCore p ≠ [] := by
    rw [normCore_shape]
    rcases hs with hs | hs <;> rw [hs] <;> simp
  have hjoin : pyUrljoin base2.toList (normCore p) = some (normCore p) :=
    pyUrljoin_abs base2.toList (normCore p) _ hOne hreparse hunp
      (by rcases hs with hs | hs <;> rw [hs] <;> decide) hnetne
      (Or.inr (Option.isSome_iff_exists.1 hb2))
  have hfinal := normalize_eq (String.mk (normCore p)) base2 (normCore p)
    ⟨p.scheme, p.netloc, rstripChar '/' p.path, [],
      List.intercalate ['&'] (keptPairs (parseQsl p.query)), []⟩
    hjoin (hreparse [])
  rw [ho, hfinal, hnormp2]

/-- Witness for the amended C9 theorem on the spec's Scenario B link:
`https://x.com/posts/7?story_fbid=7&ref=feed` normalizes to
`https://x.com/posts/7?story_fbid=7`, and re-normalizing that output
against a different base URL returns it unchanged. -/
theorem C9_idempotent_normalization_witness :
    normalizeFacebookUrl "https://x.com/posts/7?story_fbid=7&ref=feed" ""
      = some "https://x.com/posts/7?story_fbid=7"
    ∧ normalizeFacebookUrl "https://x.com/posts/7?story_fbid=7"
        "https://base.example/dir"
      = some "https://x.com/posts/7?story_fbid=7" :=
  ⟨by decide,
   C9_idempotent_normalization
    "https://x.com/posts/7?story_fbid=7&ref=feed" "" "https://base.example/dir"
    "https://x.com/posts/7?story_fbid=7&ref=feed".toList
    ⟨"https".toList, "x.com".toList, "/posts/7".toList, [],
      "story_fbid=7&ref=feed".toList, []⟩
    "https://x.com/posts/7?story_fbid=7"
    (by decide) (by decide) (Or.inr (by decide)) (by decide) (by decide)
    (by decide) (by decide) (by decide)⟩

end SenseMaker
